import Mathlib

/-!
Verification development for the IRI packet-processing engine
(AIR intermediate-representation interpreter).

The Lean definitions below are shallow embeddings of the Python 2 source:

* `src/iri/field.py`: the bit-precise field codec (`field_instance.extract`,
  `field_instance.update_header_bytes`);
* `src/iri/header.py`: `HeaderInstance` (construction by parsing, `get_field`,
  `set_field`, `serialize`);
* `src/iri/parsed_packet.py`: `ParsedPacket` (`parse_header`, `get_field`,
  `set_field`, `add_header_before`, `add_header_after`, `serialize`,
  `replicate`);
* `src/iri/table_entry.py` and `src/iri/table.py`: table entries and
  `Table.process_packet`;
* `src/iri/action.py`: action primitives and `Action.eval`;
* `src/iri/pipeline.py`: the next-table resolution inside `Pipeline.process`;
* `src/iri/parser.py`: `ParserStateTransition.next_state`;
* `src/iri/simple_queue.py`: `SimpleQueueManager.map_egress_spec` and
  `SimpleQueueManager.process`.

Conventions of the embedding:

* Byte buffers (Python `bytearray`) are `List Nat` with each entry `< 256`.
* Python 2 integer `/` on nonnegative values is `Nat` division, `%` is `Nat.mod`.
* Python exceptions are the explicit error type `PyErr`; fallible code
  returns `Except PyErr A`.  A statement in the source that evaluates an
  undefined name or a missing attribute is embedded as the corresponding
  error value, with a comment naming the offending expression.
* `b & ~m` on a nonnegative Python int `b` is `bandNot b m` (bits of `b`
  outside `m`), computed as `b ^^^ (b &&& m)`.
-/

/-- The Python exceptions (and exception-like failures) that the embedded
code can raise.  Names follow the Python exception classes; the last four
are the exception classes of `air/air_exception.py` and
`iri/iri_exception.py`. -/
inductive PyErr where
  | attributeError
  | nameError
  | typeError
  | valueError
  | keyError
  | indexError
  | structError
  | airValidationError
  | iriParamError
  | iriReferenceError
  deriving DecidableEq, Repr

/-- A field value: fields of width at most 64 bits are stored as integers,
wider fields as byte arrays (`field_instance` docstring in `field.py`). -/
inductive FieldVal where
  | int (v : Nat)
  | bytes (bs : List Nat)
  deriving DecidableEq, Repr

deriving instance DecidableEq for Except

/-- `b & ~m` for a nonnegative Python integer `b`: the bits of `b` that are
not set in `m`.  (`~m` in Python is the infinite twos-complement word, so
`b & ~m` keeps every bit of `b` outside of `m`.) -/
def bandNot (b m : Nat) : Nat := b ^^^ (b &&& m)

/-- Python slice `l[a:b]` for nonnegative indices (clamped, never raising). -/
def pySlice (l : List Nat) (a b : Nat) : List Nat := (l.take b).drop a

/-- Python item assignment `l[i] = x` for a nonnegative index: raises
`IndexError` when the index is out of range. -/
def pySet (l : List Nat) (i x : Nat) : Except PyErr (List Nat) :=
  if i < l.length then .ok (l.set i x) else .error .indexError

/-- Python item read `l[i]` for a nonnegative index. -/
def pyGet (l : List Nat) (i : Nat) : Except PyErr Nat :=
  match l.get? i with
  | some x => .ok x
  | none => .error .indexError

/-- Big-endian value of a byte list (most significant byte first); this is
what `struct.unpack` with `!B`, `!H`, `!L`, `!Q` computes on 1, 2, 4, 8
bytes. -/
def bytesToNatBE : List Nat → Nat
  | [] => 0
  | b :: rest => b <<< (8 * rest.length) + bytesToNatBE rest

/-- `struct.unpack("!…", bs)` for a `k`-byte format: requires exactly `k`
bytes, else `struct.error`. -/
def structUnpackBE (bs : List Nat) (k : Nat) : Except PyErr Nat :=
  if bs.length = k then .ok (bytesToNatBE bs) else .error .structError

/-- `field_instance.BYTE_MASK` from `field.py`: masks for bit widths up
to 8.  Call sites only index it with values at most 8. -/
def byteMask (w : Nat) : Nat :=
  [0, 1, 3, 7, 0xf, 0x1f, 0x3f, 0x7f, 0xff].getD w 0

/-- The Python idiom `((width < 8) and width) or 8` used for the shift
amounts in `field_instance.extract`. -/
def pyShift (w : Nat) : Nat := if w < 8 then (if w = 0 then 8 else w) else 8

/-- The `while width > 0` loop of `field_instance.extract` (`field.py`
lines 116-134).  `bytes` is the byte window popped from the front, `width`
the remaining width, `bo` the current bit offset (0-7), `acc` the
accumulated value. -/
def extractLoop (bytes : List Nat) (width bo acc : Nat) : Except PyErr Nat :=
  if width = 0 then .ok acc
  else if width + bo ≤ 8 then
    match bytes with
    | [] => .error .indexError
    | b0 :: _ =>
      let highBit := 7 - bo
      -- Python computes high_bit - width + 1 over the integers; since
      -- width + bo <= 8 this equals highBit + 1 - width in Nat.
      let lowBit := highBit + 1 - width
      .ok ((acc <<< pyShift width) + ((b0 >>> lowBit) &&& byteMask width))
  else if bo = 0 then
    match bytes with
    | [] => .error .indexError
    | b0 :: rest => extractLoop rest (width - 8) 0 ((acc <<< 8) + b0)
  else
    match bytes with
    | [] => .error .indexError
    | b0 :: rest =>
      let highBit := 7 - bo
      let w2 := width - (highBit + 1)
      extractLoop rest w2 0 ((acc <<< pyShift w2) + (b0 &&& byteMask (highBit + 1)))

/-- The general (hard-case) tail of `field_instance.extract` (`field.py`
lines 106-136), entered when none of the aligned fast paths apply.
Mirrors the source: the `air_assert(width < 64)` raises for wider fields,
and the window start `low = header_offset + byte_offset` adds
`header_offset` a second time (`byte_offset` already contains it). -/
def extractGeneral (buf : List Nat) (header_offset byte_offset bo width : Nat) :
    Except PyErr FieldVal :=
  if width < 64 then
    let bytes_needed := (width + bo + 7) / 8
    let low := header_offset + byte_offset
    (extractLoop (pySlice buf low (low + bytes_needed)) width bo 0).map .int
  else .error .airValidationError

/-- `field_instance.extract` (`field.py` lines 67-136): read a field of
`width` bits starting `bit_offset` bits into the header that begins at
`header_offset` bytes into `buf`. -/
def extract (buf : List Nat) (header_offset bit_offset width : Nat) :
    Except PyErr FieldVal :=
  let byte_offset := header_offset + bit_offset / 8
  let bo := bit_offset % 8
  if bo = 0 then
    if width = 8 then (structUnpackBE (pySlice buf byte_offset (byte_offset + 1)) 1).map .int
    else if width = 16 then (structUnpackBE (pySlice buf byte_offset (byte_offset + 2)) 2).map .int
    else if width = 32 then (structUnpackBE (pySlice buf byte_offset (byte_offset + 4)) 4).map .int
    else if width = 64 then (structUnpackBE (pySlice buf byte_offset (byte_offset + 8)) 8).map .int
    else if width > 64 then .ok (.bytes (pySlice buf byte_offset (byte_offset + width / 8)))
    else extractGeneral buf header_offset byte_offset bo width
  else extractGeneral buf header_offset byte_offset bo width

/-- The byte-aligned write loop of `field_instance.update_header_bytes`
(`field.py` lines 168-172): `for idx in reversed(range(width / 8))`,
writing the low byte of `value` at the highest index first.  `k` counts
the remaining iterations, so the current index is `k - 1`. -/
def updateEasyLoop (byte_offset : Nat) : Nat → Nat → List Nat → Except PyErr (List Nat)
  | 0, _, bl => .ok bl
  | k + 1, value, bl =>
    match pySet bl (byte_offset + k) (value &&& 0xff) with
    | .error e => .error e
    | .ok bl2 => updateEasyLoop byte_offset k (value >>> 8) bl2

/-- The byte-copy loop of `field_instance.update_header_bytes`
(`field.py` lines 160-163) for byte-array values. -/
def bytesCopyLoop (byte_offset : Nat) : List Nat → Nat → List Nat → Except PyErr (List Nat)
  | [], _, bl => .ok bl
  | x :: rest, idx, bl =>
    match pySet bl (byte_offset + idx) x with
    | .error e => .error e
    | .ok bl2 => bytesCopyLoop byte_offset rest (idx + 1) bl2

/-- The hard-case write loop of `field_instance.update_header_bytes`
(`field.py` lines 183-205): `for idx in range(bytes_needed)`, carrying the
mutated byte list together with the shrinking `width` and `bo`.  `value`
is already shifted left by the trailing bit count.  The structural
counter `k` is the number of remaining iterations, so the current index
is `bytes_needed - k`; the loop is entered with `k = bytes_needed`. -/
def updateHardLoop (byte_offset bytes_needed value : Nat) :
    Nat → Nat → Nat → List Nat → Except PyErr (List Nat)
  | 0, _, _, bl => .ok bl
  | k + 1, width, bo, bl =>
    let idx := bytes_needed - (k + 1)
    let value_byte := (value >>> (8 * (bytes_needed - 1 - idx))) &&& 0xFF
    if width + bo ≤ 8 then
      -- Fits in this byte and done (width is set to 0, bo is kept)
      let shift := 8 - (bo + width)
      let mask := byteMask width <<< shift
      match pyGet bl (byte_offset + idx) with
      | .error e => .error e
      | .ok b =>
        match pySet bl (byte_offset + idx) (bandNot b mask ||| value_byte) with
        | .error e => .error e
        | .ok bl2 => updateHardLoop byte_offset bytes_needed value k 0 bo bl2
    else if bo = 0 then
      -- Covers the whole byte
      match pySet bl (byte_offset + idx) value_byte with
      | .error e => .error e
      | .ok bl2 => updateHardLoop byte_offset bytes_needed value k (width - 8) 0 bl2
    else
      -- Covers the lower bits of the byte
      let mask := byteMask (8 - bo)
      match pyGet bl (byte_offset + idx) with
      | .error e => .error e
      | .ok b =>
        match pySet bl (byte_offset + idx) (bandNot b mask ||| value_byte) with
        | .error e => .error e
        | .ok bl2 =>
          updateHardLoop byte_offset bytes_needed value k (width - (8 - bo)) 0 bl2

/-- Proof-support mirror of one `updateHardLoop` pass restricted to the
window of bytes it writes: the head of `os` is the byte at the current
index, and the byte of `value` consumed at that index is selected by the
length of the remaining list.  `updateHardLoop` is proved equal to a
splice of `updSlice` into the full byte list. -/
def updSlice (value : Nat) : List Nat → Nat → Nat → List Nat
  | [], _, _ => []
  | b :: rest, width, bo =>
    let vb := (value >>> (8 * rest.length)) &&& 0xFF
    if width + bo ≤ 8 then
      (bandNot b (byteMask width <<< (8 - (bo + width))) ||| vb) :: updSlice value rest 0 bo
    else if bo = 0 then
      vb :: updSlice value rest (width - 8) 0
    else
      (bandNot b (byteMask (8 - bo)) ||| vb) :: updSlice value rest (width - (8 - bo)) 0

/-- Proof-support: the `k` big-endian bytes of `v` (most significant
first), as written by the byte-aligned loop of `update_header_bytes`. -/
def beBytes (v : Nat) : Nat → List Nat
  | 0 => []
  | k + 1 => ((v >>> (8 * k)) &&& 0xFF) :: beBytes v k

/-- `field_instance.update_header_bytes` (`field.py` lines 138-205): write
a field value of `width` bits at `bit_offset` bits into the header byte
list. -/
def update_header_bytes (byte_list : List Nat) (bit_offset width : Nat)
    (value : FieldVal) : Except PyErr (List Nat) :=
  let byte_offset := bit_offset / 8
  let bo := bit_offset % 8
  if width = 0 then .ok byte_list
  else
    match value with
    | .bytes bs => bytesCopyLoop byte_offset bs 0 byte_list
    | .int v =>
      if bo = 0 ∧ width % 8 = 0 then
        updateEasyLoop byte_offset (width / 8) v byte_list
      else
        let bytes_needed := (width + bo + 7) / 8
        let shift0 := 8 - ((bo + width) % 8)
        let shift := if shift0 = 8 then 0 else shift0
        updateHardLoop byte_offset bytes_needed (v <<< shift) bytes_needed width bo byte_list

/-! ### Generic ordered-dict helpers (`ListDict` of `air/air_common.py`)

Python dictionaries keyed by strings are association lists; assignment to
an existing key updates the value in place, otherwise appends. -/

def dictContains {α : Type} (m : List (String × α)) (k : String) : Bool :=
  m.any (fun p => p.1 = k)

def dictGet? {α : Type} (m : List (String × α)) (k : String) : Option α :=
  (m.find? (fun p => p.1 = k)).map Prod.snd

def dictSet {α : Type} (m : List (String × α)) (k : String) (v : α) : List (String × α) :=
  if m.any (fun p => p.1 = k) then m.map (fun p => if p.1 = k then (k, v) else p)
  else m ++ [(k, v)]

/-- `ListDict.insert_after`: place the new pair immediately after the
entry with the given key (callers check the key is present first). -/
def insertAfter {α : Type} : List (String × α) → String → (String × α) → List (String × α)
  | [], _, _ => []
  | p :: rest, anchor, kv =>
    if p.1 = anchor then p :: kv :: rest else p :: insertAfter rest anchor kv

/-- Character-level helper for `splitDot`: scan for the first dot; fail
when there is no dot or more than one (the split would not have exactly
two parts). -/
def splitDotChars : List Char → List Char → Option (List Char × List Char)
  | [], _ => none
  | c :: rest, acc =>
    if c = '.' then
      if rest.contains '.' then none
      else some (acc.reverse, rest)
    else splitDotChars rest (c :: acc)

/-- Split a dotted reference `hdr.fld` as `(hdr, fld) = field_ref.split(".")`
does: `none` models the `ValueError` of unpacking a split whose length is
not 2. -/
def splitDot (ref : String) : Option (String × String) :=
  match splitDotChars ref.toList [] with
  | none => none
  | some (h, f) => some (⟨h⟩, ⟨f⟩)

/-- Python slice index resolution for `l[a:b]` with signed indices:
negative indices count from the end; both ends clamp into `[0, len]`. -/
def pyIdx (len : Nat) (i : Int) : Nat :=
  if i < 0 then ((len : Int) + i).toNat else min i.toNat len

/-- Python slice `l[a:b]` with signed indices. -/
def pySliceInt (l : List Nat) (a b : Int) : List Nat :=
  (l.take (pyIdx l.length b)).drop (pyIdx l.length a)

/-! ### `HeaderInstance` (`src/iri/header.py`) -/

/-- A parsed field as held by a header: name, bit width and current value
(a `field_instance` of `field.py`).  Width expressions (strings passed to
`eval`) are outside the embedded fragment, so widths are constants. -/
structure FieldM where
  name : String
  width : Nat
  value : FieldVal
  deriving DecidableEq, Repr

/-- `HeaderInstance.MAX_PACKET_BYTES`. -/
def MAX_PACKET_BYTES : Nat := 12 * 1024

/-- `HeaderInstance.empty_byte_array`: the constant all-zero buffer used
when a header is constructed without a byte buffer. -/
def empty_byte_array : List Nat := List.replicate MAX_PACKET_BYTES 0

/-- `HeaderInstance`: a header bound to a byte range of a buffer, with an
ordered field map, a `modified` flag and byte/bit lengths. -/
structure HeaderInstanceM where
  name : String
  byte_buffer : List Nat
  offset : Nat
  length : Nat
  bit_length : Nat
  modified : Bool
  fields : List FieldM
  deriving DecidableEq, Repr

/-- The field-parsing loop of `HeaderInstance.__init__` (`header.py` lines
78-93): extract each field at the running bit offset, then advance by its
width. -/
def parseFieldsLoop (buf : List Nat) (offset : Nat) :
    List (String × Nat) → Nat → List FieldM → Except PyErr (List FieldM × Nat)
  | [], bit_offset, acc => .ok (acc, bit_offset)
  | (fname, width) :: rest, bit_offset, acc =>
    match extract buf offset bit_offset width with
    | .error e => .error e
    | .ok v => parseFieldsLoop buf offset rest (bit_offset + width) (acc ++ [⟨fname, width, v⟩])

/-- The parsing constructor of `HeaderInstance.__init__` (`header.py`
lines 26-103) for a header with field structure.  `attrs` is the ordered
`(field name, bit width)` list of the header description.  The buffer
check at lines 51-54 is Python truthiness (`if byte_buffer:`), so both a
missing `byte_buffer` AND an empty one select the constant all-zero
buffer.  The byte length is the bit length rounded up. -/
def mkHeaderInstanceParsed (name : String) (attrs : List (String × Nat))
    (byte_buffer : Option (List Nat)) (offset : Nat) : Except PyErr HeaderInstanceM :=
  let buf := match byte_buffer with
    | some bs => if bs.isEmpty then empty_byte_array else bs
    | none => empty_byte_array
  match parseFieldsLoop buf offset attrs 0 [] with
  | .error e => .error e
  | .ok (flds, bit_offset) =>
    .ok { name := name, byte_buffer := buf, offset := offset,
          length := (bit_offset + 7) / 8, bit_length := bit_offset,
          modified := false, fields := flds }

/-- `HeaderInstance.get_field` (`header.py` lines 111-123): no error
checking; returns 0 when the field map is empty or the name is absent. -/
def HeaderInstanceM.get_field (h : HeaderInstanceM) (field_name : String) : FieldVal :=
  match h.fields.find? (fun f => f.name = field_name) with
  | none => .int 0
  | some f => f.value

/-- `HeaderInstance.set_field` (`header.py` lines 125-151) without the
optional width argument (no embedded caller passes one): `none` when the
field is absent, otherwise store the value, set `modified` and return the
value.  The source type check (`int` or `bytearray`) always passes for a
`FieldVal`. -/
def HeaderInstanceM.set_fieldH (h : HeaderInstanceM) (field_name : String)
    (value : FieldVal) : HeaderInstanceM × Option FieldVal :=
  match h.fields.find? (fun f => f.name = field_name) with
  | none => (h, none)
  | some _ =>
    ({ h with
        fields := h.fields.map (fun f => if f.name = field_name then { f with value := value } else f),
        modified := true }, some value)

/-- The field re-emission loop of `HeaderInstance.serialize` (`header.py`
lines 161-166). -/
def serializeFieldsLoop : List FieldM → Nat → List Nat → Except PyErr (List Nat)
  | [], _, bl => .ok bl
  | f :: rest, bit_offset, bl =>
    match update_header_bytes bl bit_offset f.width f.value with
    | .error e => .error e
    | .ok bl2 => serializeFieldsLoop rest (bit_offset + f.width) bl2

/-- `HeaderInstance.serialize` (`header.py` lines 153-166): the original
byte range verbatim when not modified, otherwise a fresh zero byte array
of `length` bytes with every field re-emitted in order. -/
def HeaderInstanceM.serializeH (h : HeaderInstanceM) : Except PyErr (List Nat) :=
  if !h.modified then .ok (pySlice h.byte_buffer h.offset (h.offset + h.length))
  else serializeFieldsLoop h.fields 0 (List.replicate h.length 0)

/-! ### `ParsedPacket` (`src/iri/parsed_packet.py`) -/

/-- `ParsedPacket`: original buffer, ordered header map, metadata map,
payload window, id and parent id.  `payload_length` and `header_length`
are Python ints and may go negative, hence `Int`. -/
structure ParsedPacketM where
  original_packet : List Nat
  header_map : List (String × HeaderInstanceM)
  header_length : Int
  payload_offset : Nat
  payload_length : Int
  id : Nat
  parent_id : Option Nat
  metadata : List (String × HeaderInstanceM)
  parse_error : Option String
  deriving DecidableEq, Repr

/-- The metadata constructor loop of `ParsedPacket.__init__` (`parsed_packet.py`
lines 102-104): one `HeaderInstance(name, md)` per entry (no byte buffer). -/
def mkMetadataLoop : List (String × List (String × Nat)) →
    Except PyErr (List (String × HeaderInstanceM))
  | [] => .ok []
  | (name, md) :: rest =>
    match mkHeaderInstanceParsed name md none 0 with
    | .error e => .error e
    | .ok h =>
      match mkMetadataLoop rest with
      | .error e => .error e
      | .ok rest2 => .ok ((name, h) :: rest2)

/-- `ParsedPacket.__init__` (`parsed_packet.py` lines 76-106); the global
id counter is passed explicitly. -/
def mkParsedPacket (original_packet : List Nat)
    (metadata_dict : List (String × List (String × Nat))) (id : Nat) :
    Except PyErr ParsedPacketM :=
  match mkMetadataLoop metadata_dict with
  | .error e => .error e
  | .ok md =>
    .ok { original_packet := original_packet, header_map := [], header_length := 0,
          payload_offset := 0, payload_length := (original_packet.length : Int),
          id := id, parent_id := none, metadata := md, parse_error := none }

/-- `ParsedPacket.parse_header` (`parsed_packet.py` lines 108-133): build
a `HeaderInstance` over `(original_packet, payload_offset)`, store it in
the ordered map and advance the payload window. -/
def ParsedPacketM.parse_headerP (p : ParsedPacketM) (header_name : String)
    (header_attrs : List (String × Nat)) : Except PyErr ParsedPacketM :=
  match mkHeaderInstanceParsed header_name header_attrs (some p.original_packet)
      p.payload_offset with
  | .error e => .error e
  | .ok header =>
    .ok { p with
      header_map := dictSet p.header_map header_name header,
      payload_offset := p.payload_offset + header.length,
      payload_length := p.payload_length - (header.length : Int),
      header_length := p.header_length + (header.length : Int) }

/-- `ParsedPacket.get_field` (`parsed_packet.py` lines 135-150): the
`ValueError` of a malformed reference is caught and `None` returned;
header then metadata namespaces are searched; an unknown name gives
`None`. -/
def ParsedPacketM.get_fieldP (p : ParsedPacketM) (field_ref : String) : Option FieldVal :=
  match splitDot field_ref with
  | none => none
  | some (hdr, fld) =>
    match dictGet? p.header_map hdr with
    | some h => some (h.get_field fld)
    | none =>
      match dictGet? p.metadata hdr with
      | some h => some (h.get_field fld)
      | none => none

/-- `ParsedPacket.set_field` (`parsed_packet.py` lines 152-166): unlike
`get_field` there is no `try` around the split, so a malformed reference
raises `ValueError`; an unknown header gives `None` without mutation. -/
def ParsedPacketM.set_fieldP (p : ParsedPacketM) (field_ref : String) (v : FieldVal) :
    Except PyErr (ParsedPacketM × Option FieldVal) :=
  match splitDot field_ref with
  | none => .error .valueError
  | some (hdr, fld) =>
    match dictGet? p.header_map hdr with
    | some h =>
      let r := h.set_fieldH fld v
      .ok ({ p with header_map := dictSet p.header_map hdr r.1 }, r.2)
    | none =>
      match dictGet? p.metadata hdr with
      | some h =>
        let r := h.set_fieldH fld v
        .ok ({ p with metadata := dictSet p.metadata hdr r.1 }, r.2)
      | none => .ok (p, none)

/-- `ParsedPacket.add_header_before` (`parsed_packet.py` lines 168-186).
Its first statement evaluates
`air_check(before_header_name in self.header_map, AIRPacketModException)`;
Python evaluates the arguments first, and the name `AIRPacketModException`
is defined nowhere (the packet-modification exception class is
`IriPacketModError` in `iri_exception.py`, and neither star import
provides the name), so every call raises `NameError` before anything else
happens. -/
def ParsedPacketM.add_header_beforeP (_p : ParsedPacketM) (_header_name : String)
    (_header_attrs : List (String × Nat)) (_before_header_name : String) :
    Except PyErr (ParsedPacketM × Option Nat) :=
  .error .nameError

/-- `ParsedPacket.add_header_after` (`parsed_packet.py` lines 188-208):
`None` when the anchor is absent or the name already present; otherwise a
freshly-zeroed `HeaderInstance` (no byte buffer) is inserted after the
anchor and its length returned. -/
def ParsedPacketM.add_header_afterP (p : ParsedPacketM) (header_name : String)
    (header_attrs : List (String × Nat)) (after_header_name : String) :
    Except PyErr (ParsedPacketM × Option Nat) :=
  if ¬ dictContains p.header_map after_header_name then .ok (p, none)
  else if dictContains p.header_map header_name then .ok (p, none)
  else
    match mkHeaderInstanceParsed header_name header_attrs none 0 with
    | .error e => .error e
    | .ok header =>
      .ok ({ p with
          header_map := insertAfter p.header_map after_header_name (header_name, header),
          header_length := p.header_length + (header.length : Int) }, some header.length)

/-- `ParsedPacket.remove_header` (`parsed_packet.py` lines 210-226). -/
def ParsedPacketM.remove_headerP (p : ParsedPacketM) (header_name : String) :
    ParsedPacketM × Option Nat :=
  match dictGet? p.header_map header_name with
  | none => (p, none)
  | some h =>
    let hm := p.header_map.filter (fun q => q.1 != header_name)
    let p2 := { p with header_map := hm, header_length := p.header_length - (h.length : Int) }
    (p2, some h.length)

/-- The header concatenation loop of `ParsedPacket.serialize`
(`parsed_packet.py` lines 249-251). -/
def serializeHeadersLoop : List (String × HeaderInstanceM) → Except PyErr (List Nat)
  | [] => .ok []
  | (_, h) :: rest =>
    match h.serializeH with
    | .error e => .error e
    | .ok bs =>
      match serializeHeadersLoop rest with
      | .error e => .error e
      | .ok bs2 => .ok (bs ++ bs2)

/-- `ParsedPacket.serialize` (`parsed_packet.py` lines 245-255): each
header serialization in insertion order, then the payload window of the
original buffer. -/
def ParsedPacketM.serializeP (p : ParsedPacketM) : Except PyErr (List Nat) :=
  match serializeHeadersLoop p.header_map with
  | .error e => .error e
  | .ok hdrs =>
    .ok (hdrs ++ pySliceInt p.original_packet (p.payload_offset : Int)
      ((p.payload_offset : Int) + p.payload_length))

/-- `ParsedPacket.header_valid` (`parsed_packet.py` lines 288-293). -/
def ParsedPacketM.header_validP (p : ParsedPacketM) (header_name : String) : Bool :=
  dictContains p.header_map header_name

/-! ### `ParsedPacket.replicate` (object-level model)

`replicate` manipulates object identity (`copy.copy` versus
`copy.deepcopy`) and the class-level id counter, so it is modelled at the
level of attribute references: attribute values that are references to
heap objects are numeric object identities.  `copy.copy` copies every
attribute reference; `copy.deepcopy` yields a fresh object identity. -/

/-- The attributes of a `ParsedPacket` object relevant to `replicate`:
`headers` is the attribute written only by `replicate` (nothing else in
the class reads or writes it; the ordered header map attribute is
`header_map`). -/
structure PPacketObj where
  id : Nat
  parent_id : Option Nat
  original_packet : Nat
  header_map : Nat
  metadata : Nat
  headers : Option Nat
  deriving DecidableEq, Repr

/-- `ParsedPacket.replicate` (`parsed_packet.py` lines 307-319), statement
by statement: `replicant = copy.copy(self)` (all attribute references
shared); `replicant.headers = copy.deepcopy(self.header_map)` (a fresh
object bound to the attribute `headers`);
`replicant.metadata = copy.deepcopy(self.metadata)` (fresh);
`self.id = ParsedPacket.id_next`; `ParsedPacket.id_next += 1`;
`replicant.parent_id = self.id`.  Returns (the mutated self, the
replicant, the new id counter); `fresh` allocates the two deep-copied
object identities. -/
def replicateObj (self : PPacketObj) (id_next fresh : Nat) :
    PPacketObj × PPacketObj × Nat :=
  let replicant := self
  let replicant := { replicant with headers := some fresh }
  let replicant := { replicant with metadata := fresh + 1 }
  let self2 := { self with id := id_next }
  let replicant := { replicant with parent_id := some self2.id }
  (self2, replicant, id_next + 1)

/-! ### Table entries (`src/iri/table_entry.py`) -/

/-- `deref_or_none(dictionary, key)` from `air/air_common.py`, for the
optional mask map: `None` when the map itself is missing or empty, or the
key is absent. -/
def derefOrNone (masks : Option (List (String × Nat))) (key : String) : Option Nat :=
  match masks with
  | none => none
  | some m => (m.find? (fun p => p.1 = key)).map Prod.snd

/-- The scan of `TableEntryExact.check_match` (`table_entry.py` lines
44-53): every stored value must equal the packet value; a `None` packet
value fails; a byte-array packet value compares unequal to an int in
Python 2 (no error), hence also fails. -/
def checkMatchExactLoop (p : ParsedPacketM) : List (String × Nat) → Bool
  | [] => true
  | (fname, value) :: rest =>
    match p.get_fieldP fname with
    | none => false
    | some (.bytes _) => false
    | some (.int x) => if x ≠ value then false else checkMatchExactLoop p rest

/-- The scan of `TableEntryTernary.check_match` (`table_entry.py` lines
81-98): with a mask, equality under `& mask` on both sides (`&` on a
byte-array value raises `TypeError`); without a mask, exact comparison. -/
def checkMatchTernaryLoop (match_masks : Option (List (String × Nat)))
    (p : ParsedPacketM) : List (String × Nat) → Except PyErr Bool
  | [] => .ok true
  | (fname, value) :: rest =>
    match p.get_fieldP fname with
    | none => .ok false
    | some pv =>
      match derefOrNone match_masks fname with
      | some m =>
        match pv with
        | .bytes _ => .error .typeError
        | .int x =>
          if x &&& m ≠ value &&& m then .ok false
          else checkMatchTernaryLoop match_masks p rest
      | none =>
        match pv with
        | .bytes _ => .ok false
        | .int x => if x ≠ value then .ok false else checkMatchTernaryLoop match_masks p rest

/-- A table entry: exact, ternary, or the default entry
(`TableEntryDefault` carries only the action reference and parameters). -/
inductive TableEntryM where
  | exact (match_values : List (String × Nat)) (action_ref : String)
      (action_params : List (String × FieldVal))
  | ternary (match_values : List (String × Nat)) (match_masks : Option (List (String × Nat)))
      (action_ref : String) (action_params : List (String × FieldVal)) (priority : Nat)
  deriving DecidableEq, Repr

/-- `TableEntryTernary.check_match`: `(action_ref, action_params)` on a
match, `None` otherwise. -/
def checkMatchTernary (match_values : List (String × Nat))
    (match_masks : Option (List (String × Nat))) (action_ref : String)
    (action_params : List (String × FieldVal)) (p : ParsedPacketM) :
    Except PyErr (Option (String × List (String × FieldVal))) :=
  match checkMatchTernaryLoop match_masks p match_values with
  | .error e => .error e
  | .ok true => .ok (some (action_ref, action_params))
  | .ok false => .ok none

/-- `check_match` of either entry kind. -/
def TableEntryM.check_matchE (e : TableEntryM) (p : ParsedPacketM) :
    Except PyErr (Option (String × List (String × FieldVal))) :=
  match e with
  | .exact mv aref ap =>
    .ok (if checkMatchExactLoop p mv then some (aref, ap) else none)
  | .ternary mv masks aref ap _ => checkMatchTernary mv masks aref ap p

/-! ### Actions (`src/iri/action.py`) -/

/-- The primitive actions of `action.py` (`primitive_action_to_class`).
The third `modify_field` argument stays the textual token of the
implementation string: `IriPrimitiveModifyField.__init__` stores
`args[2]` without converting it to an integer. -/
inductive PrimM where
  | modifyField (dst src : String) (mask : Option String)
  | addHeader (header_ref : String)
  | removeHeader (header_ref : String)
  | addToField (field_name : String) (value : Nat)
  | noOp
  deriving DecidableEq, Repr

/-- Evaluation of one primitive against the value map and the packet.

* `modify_field` (`IriPrimitiveModifyField.eval`, lines 29-48): with a
  truthy mask (a nonempty textual token — never converted to an int),
  the expression `value_map[self.destination] & ~self.mask | ...` first
  looks up the destination (`KeyError` when absent) and then evaluates
  `~self.mask` on a `str`, which raises `TypeError`, so every masked
  `modify_field` raises; without a mask the source value is looked up
  (`KeyError` when absent) and stored through `ParsedPacket.set_field`.
* `add_header` (`IriPrimitiveAddHeader.eval`, lines 58-67): the body calls
  `parsed_packet.add_header(self.header_ref)`; `ParsedPacket` defines no
  attribute or method named `add_header` (only `add_header_before` and
  `add_header_after`), so Python raises `AttributeError`.
* `remove_header` (`IriPrimitiveRemoveHeader.eval`, lines 77-86): the body
  is `pass` after the debug log; the packet is not mutated.
* `add_to_field` (`IriPrimitiveAddToField.eval`, lines 101-113): reads the
  field (`None + int` and `bytearray + int` raise `TypeError`), adds, and
  stores through `set_field`. -/
def evalPrim (values : List (String × FieldVal)) (p : ParsedPacketM) :
    PrimM → Except PyErr ParsedPacketM
  | .modifyField dst src mask =>
    if mask.elim false (fun m => m != "") then
      match dictGet? values dst with
      | none => .error .keyError
      | some _ => .error .typeError
    else
      match dictGet? values src with
      | none => .error .keyError
      | some v =>
        match p.set_fieldP dst v with
        | .error e => .error e
        | .ok r => .ok r.1
  | .addHeader _ => .error .attributeError
  | .removeHeader _ => .ok p
  | .addToField fld value =>
    match p.get_fieldP fld with
    | none => .error .typeError
    | some (.bytes _) => .error .typeError
    | some (.int x) =>
      match p.set_fieldP fld (.int (x + value)) with
      | .error e => .error e
      | .ok r => .ok r.1
  | .noOp => .ok p

/-- An `Action` object: declared parameter list, parsed primitive
sequence, and the set of textual arguments of the primitive calls. -/
structure ActionM where
  name : String
  param_list : List String
  primitives : List PrimM
  param_refs : List String
  deriving DecidableEq, Repr

/-- Two string lists with the same elements (Python
`set(xs) == set(ys)`). -/
def sameKeySet (xs ys : List String) : Bool :=
  xs.all (fun x => ys.contains x) && ys.all (fun y => xs.contains y)

/-- The value-map construction of `Action.eval` (`action.py` lines
174-182): start from the table parameters; bind every other primitive
argument that is a valid field reference on the packet to its current
value (one snapshot before any primitive runs). -/
def buildValuesLoop (p : ParsedPacketM) : List String → List (String × FieldVal) →
    List (String × FieldVal)
  | [], values => values
  | ref :: rest, values =>
    if dictContains values ref then buildValuesLoop p rest values
    else
      match p.get_fieldP ref with
      | none => buildValuesLoop p rest values
      | some v => buildValuesLoop p rest (dictSet values ref v)

/-- The primitive application loop of `Action.eval` (lines 184-186). -/
def evalPrimsLoop (values : List (String × FieldVal)) :
    List PrimM → ParsedPacketM → Except PyErr ParsedPacketM
  | [], p => .ok p
  | prim :: rest, p =>
    match evalPrim values p prim with
    | .error e => .error e
    | .ok p2 => evalPrimsLoop values rest p2

/-- `Action.eval` (`action.py` lines 166-186): assert the parameter keys
match the declared list, build the value map, apply each primitive in
order. -/
def ActionM.evalA (a : ActionM) (p : ParsedPacketM)
    (action_params : List (String × FieldVal)) : Except PyErr ParsedPacketM :=
  if ¬ sameKeySet (action_params.map Prod.fst) a.param_list then .error .airValidationError
  else evalPrimsLoop (buildValuesLoop p a.param_refs action_params) a.primitives p

/-! ### `Table` (`src/iri/table.py`) -/

/-- A table: entry list, optional default entry (action reference and
parameters), and the hit counters. -/
structure TableM where
  name : String
  entries : List TableEntryM
  default_entry : Option (String × List (String × FieldVal))
  byte_count : Nat
  packet_count : Nat
  deriving DecidableEq, Repr

/-- The linear scan of `Table.process_packet` (`table.py` lines 58-66):
first entry whose `check_match` is truthy wins. -/
def scanEntries (p : ParsedPacketM) :
    List TableEntryM → Except PyErr (Option (String × List (String × FieldVal)))
  | [] => .ok none
  | e :: rest =>
    match e.check_matchE p with
    | .error err => .error err
    | .ok (some r) => .ok (some r)
    | .ok none => scanEntries p rest

/-- `Table.process_packet` (`table.py` lines 42-76).  On a hit the source
runs `self.packet_count += 1` and then
`self.byte_count += parsed_packet.length()`; `ParsedPacket` defines no
attribute or method named `length` (it has `header_length` and
`payload_length`), so the byte-count statement raises `AttributeError`
with the packet counter already incremented and the byte counter
untouched.  On a miss with a default entry, the default action is
evaluated (the lookup `self.action_map[action_ref]` raises `KeyError`
when the action is unknown); counters are not incremented.  Returns the
updated table and either the `(hit, action_ref)` outcome with the
(possibly mutated) packet, or the propagated exception. -/
def processPacketT (t : TableM) (action_map : List (String × ActionM))
    (p : ParsedPacketM) : TableM × Except PyErr (Bool × Option String × ParsedPacketM) :=
  match scanEntries p t.entries with
  | .error e => (t, .error e)
  | .ok (some _) => ({ t with packet_count := t.packet_count + 1 }, .error .attributeError)
  | .ok none =>
    match t.default_entry with
    | none => (t, .ok (false, none, p))
    | some (aref, params) =>
      match dictGet? action_map aref with
      | none => (t, .error .keyError)
      | some act =>
        match act.evalA p params with
        | .error e => (t, .error e)
        | .ok p2 => (t, .ok (false, some aref, p2))

/-! ### Pipeline next-table resolution (`src/iri/pipeline.py`) -/

/-- The next-table resolution inside `Pipeline.process` (`pipeline.py`
lines 127-143), applied to the `(hit, action)` outcome of a table.
`current_table_name` starts as `"exit_control_flow"` and the edge map is
consulted with the documented precedence.  The last test of the hit
branch evaluates `"default" in transition.keys()`; the name `transition`
is undefined (the dictionary is named `transitions`), so reaching that
test raises `NameError`.  On a hit `action` is the matched action name;
`None in transitions.keys()` is simply false in Python. -/
def resolveNextTable (transitions : List (String × String)) (hit : Bool)
    (action : Option String) : Except PyErr String :=
  if dictContains transitions "always" then
    .ok ((dictGet? transitions "always").getD "exit_control_flow")
  else if ¬ hit then
    if dictContains transitions "miss" then
      .ok ((dictGet? transitions "miss").getD "exit_control_flow")
    else
      match action with
      | some a =>
        if dictContains transitions a then .ok ((dictGet? transitions a).getD "exit_control_flow")
        else .ok "exit_control_flow"
      | none => .ok "exit_control_flow"
  else
    match action with
    | some a =>
      if dictContains transitions a then .ok ((dictGet? transitions a).getD "exit_control_flow")
      else if dictContains transitions "hit" then
        .ok ((dictGet? transitions "hit").getD "exit_control_flow")
      else .error .nameError
    | none =>
      if dictContains transitions "hit" then
        .ok ((dictGet? transitions "hit").getD "exit_control_flow")
      else .error .nameError

/-! ### Parser state transitions (`src/iri/parser.py`) -/

/-- `ParserStateTransition`: specific-value map, value-set maps (keyed by
value-set NAME), negated value-set map, optional default.
`all_value_sets` holds the actual member sets but is never consulted by
`next_state`. -/
structure ParserStateTransitionM where
  name : String
  default : Option String
  value_map : List (Nat × String)
  all_value_sets : List (String × List Nat)
  in_value_sets : List (String × String)
  not_in_value_sets : List (String × String)
  deriving DecidableEq, Repr

/-- `ParserStateTransition.next_state` (`parser.py` lines 55-83) for an
integer (or absent) select value.  The value-set loops iterate
`self.in_value_sets.items()`, so the loop variable `value_set` is bound
to the value-set NAME (a string); `select_value in value_set` is then an
`int in str` membership test, which raises `TypeError` in Python 2.
Hence any nonempty value-set map raises for an integer select value; the
member sets in `all_value_sets` are never reached. -/
def next_stateP (tr : ParserStateTransitionM) (select_value : Option Nat) :
    Except PyErr (Option String) :=
  match select_value with
  | none => .ok tr.default
  | some v =>
    if tr.value_map.any (fun q => q.1 = v) then
      .ok ((tr.value_map.find? (fun q => q.1 = v)).map Prod.snd)
    else if ¬ tr.in_value_sets.isEmpty then .error .typeError
    else if ¬ tr.not_in_value_sets.isEmpty then .error .typeError
    else .ok tr.default

/-! ### Traffic manager (`src/iri/simple_queue.py`) -/

/-- `SimpleQueueManager`: note that `__init__` sets
`self.multicast_map = []`, a Python LIST. -/
structure SimpleQueueManagerM where
  name : String
  port_count : Nat
  q_per_port : Nat
  multicast_map : List (List (Nat × Nat))
  queues : List (List (List ParsedPacketM))
  deriving DecidableEq, Repr

/-- `SimpleQueueManager.map_egress_spec` (`simple_queue.py` lines 58-80):
absent or `0xffffffff` drops (empty list); bit 28 clear is unicast with
port in the low 16 bits and `(spec >> 16) & 0xffff` as the queue; bit 28
set is multicast, but the membership test
`if mc_idx in self.multicast_map.keys()` calls `.keys()` on the list
`multicast_map`, which raises `AttributeError`. -/
def map_egress_specQ (_tm : SimpleQueueManagerM) (egress_spec : Option Nat) :
    Except PyErr (List (Nat × Nat)) :=
  match egress_spec with
  | none => .ok []
  | some spec =>
    if spec = 0xffffffff then .ok []
    else if spec &&& 0x10000000 = 0 then
      .ok [(spec &&& 0xffff, (spec >>> 16) &&& 0xffff)]
    else .error .attributeError

/-- Appending to `self.queues[port][queue]` (out-of-range indices raise
`IndexError`). -/
def enqueueAt (tm : SimpleQueueManagerM) (port queue : Nat) (pkt : ParsedPacketM) :
    Except PyErr SimpleQueueManagerM :=
  match tm.queues.get? port with
  | none => .error .indexError
  | some pq =>
    match pq.get? queue with
    | none => .error .indexError
    | some ql => .ok { tm with queues := tm.queues.set port (pq.set queue (ql ++ [pkt])) }

/-- The destination loop of `SimpleQueueManager.process` (`simple_queue.py`
lines 102-112): the last destination receives the original packet; every
earlier destination evaluates `replicant = parse_packet.replicate()`, and
the name `parse_packet` is undefined (the parameter is `parsed_packet`),
so a fan-out of two or more destinations raises `NameError` at the first
one. -/
def enqueueLoopQ (pkt : ParsedPacketM) : List (Nat × Nat) → SimpleQueueManagerM →
    Except PyErr SimpleQueueManagerM
  | [], tm => .ok tm
  | (port, queue) :: rest, tm =>
    if rest.isEmpty then enqueueAt tm port queue pkt
    else .error .nameError

/-- `SimpleQueueManager.process` (`simple_queue.py` lines 82-112): read
`intrinsic_metadata.egress_specification`; an absent field returns
(drop); a byte-array value reaches `egress_spec & 0x10000000` inside
`map_egress_spec` and raises `TypeError`; otherwise expand the egress
spec and enqueue each destination. -/
def processQ (tm : SimpleQueueManagerM) (p : ParsedPacketM) :
    Except PyErr SimpleQueueManagerM :=
  match p.get_fieldP "intrinsic_metadata.egress_specification" with
  | none => .ok tm
  | some (.bytes _) => .error .typeError
  | some (.int spec) =>
    match map_egress_specQ tm (some spec) with
    | .error e => .error e
    | .ok dests => enqueueLoopQ p dests tm

/-! ### Drivers and invariants for the serialization claim -/

/-- A sequence of `parse_header` calls, as in `Parser.process` applying
the `extracts` of the traversed states (`parser.py` lines 195-199): each
instruction is a header name with its field description. -/
def foldParse (p : ParsedPacketM) : List (String × List (String × Nat)) →
    Except PyErr ParsedPacketM
  | [] => .ok p
  | (name, attrs) :: rest =>
    match p.parse_headerP name attrs with
    | .error e => .error e
    | .ok p2 => foldParse p2 rest

/-- Total byte length of the headers in an ordered header map. -/
def sumHdrLen (hs : List (String × HeaderInstanceM)) : Nat :=
  (hs.map (fun q => q.2.length)).sum

/-- The headers of a packet are unmodified views of contiguous ranges of
`buf` starting at `off`. -/
def HeadersChain (buf : List Nat) : Nat → List (String × HeaderInstanceM) → Prop
  | _, [] => True
  | off, (_, h) :: rest =>
    h.byte_buffer = buf ∧ h.offset = off ∧ h.modified = false ∧
      HeadersChain buf (off + h.length) rest

/-- Invariant of a packet built from `buf` only by `parse_header` calls:
headers are contiguous unmodified views from offset 0, the payload
window starts where the headers end and reaches the end of the buffer. -/
def PacketWF (p : ParsedPacketM) (buf : List Nat) : Prop :=
  p.original_packet = buf ∧
  HeadersChain buf 0 p.header_map ∧
  p.payload_offset = sumHdrLen p.header_map ∧
  (p.payload_offset : Int) + p.payload_length = (buf.length : Int)

/-! ### Concrete fixtures used by witnesses and counterexamples -/

/-- A header instance carrying no fields (constructed from a header
description with an empty field list). -/
def hdrNoFields : HeaderInstanceM :=
  { name := "h", byte_buffer := [1, 2, 3, 4], offset := 0, length := 0,
    bit_length := 0, modified := false, fields := [] }

/-- A packet whose header map holds the header `h` (which has no field
named `f`). -/
def pktH : ParsedPacketM :=
  { original_packet := [1, 2, 3, 4], header_map := [("h", hdrNoFields)],
    header_length := 0, payload_offset := 0, payload_length := 4, id := 0,
    parent_id := none, metadata := [], parse_error := none }

/-- A table with one ternary entry whose empty match list matches every
packet. -/
def tblFix : TableM :=
  { name := "t", entries := [.ternary [] none "fwd" [] 0],
    default_entry := none, byte_count := 0, packet_count := 0 }

/-- A two-port traffic manager with two queues per port, all empty. -/
def tmFix : SimpleQueueManagerM :=
  { name := "tm", port_count := 2, q_per_port := 2, multicast_map := [],
    queues := [[[], []], [[], []]] }

/-- A packet whose `intrinsic_metadata.egress_specification` metadata
field holds the given value. -/
def mdPkt (spec : Nat) : ParsedPacketM :=
  { original_packet := [], header_map := [], header_length := 0, payload_offset := 0,
    payload_length := 0, id := 7, parent_id := none,
    metadata := [("intrinsic_metadata",
      { name := "intrinsic_metadata", byte_buffer := [], offset := 0, length := 4,
        bit_length := 32, modified := true,
        fields := [⟨"egress_specification", 32, .int spec⟩] })],
    parse_error := none }

/-- A parser state transition with one specific value, one positive value
set and a default. -/
def trFix : ParserStateTransitionM :=
  { name := "start", default := some "ingress", value_map := [(0x8100, "parse_vlan")],
    all_value_sets := [("tcp_ports", [80, 443])],
    in_value_sets := [("tcp_ports", "parse_tcp")], not_in_value_sets := [] }

/-- A parsed-packet object fixture for the replication claim. -/
def pObjFix : PPacketObj :=
  { id := 0, parent_id := none, original_packet := 100,
    header_map := 101, metadata := 102, headers := none }

/-- The header instance produced by `HeaderInstance("nh", [])` with no byte
buffer: bound to the constant zero buffer with no fields. -/
def hhFix : HeaderInstanceM :=
  { name := "nh", byte_buffer := empty_byte_array, offset := 0, length := 0,
    bit_length := 0, modified := false, fields := [] }

/-- A six-byte packet buffer. -/
def bufW : List Nat := [1, 2, 3, 4, 5, 6]

/-- A parse program: header `a` holding one 16-bit field, then header `b`
holding one 8-bit field. -/
def hsW : List (String × List (String × Nat)) :=
  [("a", [("x", 16)]), ("b", [("y", 8)])]

/-- `ParsedPacket(bufW, {})` before any parsing. -/
def p0W : ParsedPacketM :=
  { original_packet := bufW, header_map := [], header_length := 0, payload_offset := 0,
    payload_length := 6, id := 0, parent_id := none, metadata := [], parse_error := none }

/-- The header instance for `a` parsed from `bufW` at offset 0. -/
def haW : HeaderInstanceM :=
  { name := "a", byte_buffer := bufW, offset := 0, length := 2, bit_length := 16,
    modified := false, fields := [⟨"x", 16, .int 258⟩] }

/-- The header instance for `b` parsed from `bufW` at offset 2. -/
def hbW : HeaderInstanceM :=
  { name := "b", byte_buffer := bufW, offset := 2, length := 1, bit_length := 8,
    modified := false, fields := [⟨"y", 8, .int 3⟩] }

/-- The packet after parsing `hsW` over `bufW`. -/
def pW : ParsedPacketM :=
  { original_packet := bufW, header_map := [("a", haW), ("b", hbW)], header_length := 3,
    payload_offset := 3, payload_length := 3, id := 0, parent_id := none, metadata := [],
    parse_error := none }

/-- `ParsedPacket(bytearray(0), {})`: a packet over the EMPTY original
buffer. -/
def p0E : ParsedPacketM :=
  { original_packet := [], header_map := [], header_length := 0, payload_offset := 0,
    payload_length := 0, id := 0, parent_id := none, metadata := [], parse_error := none }

/-- The header instance for `a` parsed over the empty original buffer:
the falsy buffer is replaced by the constant zero buffer, so the 16-bit
field parses to 0. -/
def haE : HeaderInstanceM :=
  { name := "a", byte_buffer := empty_byte_array, offset := 0, length := 2,
    bit_length := 16, modified := false, fields := [⟨"x", 16, .int 0⟩] }

/-- The packet after parsing a 16-bit header over the empty original
buffer. -/
def pE : ParsedPacketM :=
  { original_packet := [], header_map := [("a", haE)], header_length := 2,
    payload_offset := 2, payload_length := -2, id := 0, parent_id := none, metadata := [],
    parse_error := none }

/-! ### Lemmas: basics for the field codec -/

theorem byteMask_eq {w : Nat} (h : w ≤ 8) : byteMask w = 2 ^ w - 1 := by
  interval_cases w <;> rfl

theorem pyShift_eq {w : Nat} (h1 : 1 ≤ w) (h2 : w ≤ 8) : pyShift w = w := by
  interval_cases w <;> rfl

theorem bandNot_testBit (b m i : Nat) :
    (bandNot b m).testBit i = (b.testBit i && !m.testBit i) := by
  unfold bandNot
  rw [Nat.testBit_xor, Nat.testBit_land]
  cases b.testBit i <;> cases m.testBit i <;> rfl

theorem land_two_pow_sub_one (x n : Nat) : x &&& (2 ^ n - 1) = x % 2 ^ n :=
  Nat.and_pow_two_sub_one_eq_mod x n

theorem land_255 (x : Nat) : x &&& 255 = x % 256 := land_two_pow_sub_one x 8

theorem land_255_of_lt {x : Nat} (h : x < 256) : x &&& 255 = x := by
  rw [land_255, Nat.mod_eq_of_lt h]

/-- The single-byte merge: overwrite the `w`-bit slice of a byte at
trailing offset `t`, then read it back. -/
theorem mergeExtractByte (b u w t : Nat) (hu : u < 2 ^ w) :
    ((bandNot b ((2 ^ w - 1) <<< t) ||| (u <<< t)) >>> t) &&& (2 ^ w - 1) = u := by
  apply Nat.eq_of_testBit_eq
  intro i
  rw [Nat.testBit_land, Nat.testBit_shiftRight, Nat.testBit_lor, bandNot_testBit,
    Nat.testBit_shiftLeft, Nat.testBit_shiftLeft, Nat.testBit_two_pow_sub_one,
    Nat.testBit_two_pow_sub_one]
  have ht : t ≤ t + i := Nat.le_add_right t i
  have hti : t + i - t = i := by omega
  rw [hti]
  by_cases hi : i < w
  · simp [hi, ht]
  · have hpow : (2 : Nat) ^ w ≤ 2 ^ i := by
      apply Nat.pow_le_pow_right
      · norm_num
      · omega
    have hub : u.testBit i = false := Nat.testBit_lt_two_pow (lt_of_lt_of_le hu hpow)
    simp [hi, hub]

theorem updSlice_length (value : Nat) (os : List Nat) (w bo : Nat) :
    (updSlice value os w bo).length = os.length := by
  induction os generalizing w bo with
  | nil => rfl
  | cons b rest ih =>
    simp only [updSlice]
    split
    · simp [ih]
    · split
      · simp [ih]
      · simp [ih]

theorem beBytes_length (v k : Nat) : (beBytes v k).length = k := by
  induction k with
  | zero => rfl
  | succ k ih => simp [beBytes, ih]

/-- `updSlice` only reads the low `8 * os.length` bits of the value. -/
theorem updSlice_mod_congr (V1 V2 : Nat) (os : List Nat) (w bo : Nat)
    (h : V1 % 2 ^ (8 * os.length) = V2 % 2 ^ (8 * os.length)) :
    updSlice V1 os w bo = updSlice V2 os w bo := by
  induction os generalizing w bo with
  | nil => rfl
  | cons b rest ih =>
    have hlen : (b :: rest).length = rest.length + 1 := rfl
    have hvb : (V1 >>> (8 * rest.length)) &&& 0xFF = (V2 >>> (8 * rest.length)) &&& 0xFF := by
      rw [land_255, land_255, Nat.shiftRight_eq_div_pow, Nat.shiftRight_eq_div_pow]
      have e1 : V1 % (2 ^ (8 * rest.length) * 2 ^ 8) / 2 ^ (8 * rest.length)
          = V1 / 2 ^ (8 * rest.length) % 2 ^ 8 := Nat.mod_mul_right_div_self V1 _ _
      have e2 : V2 % (2 ^ (8 * rest.length) * 2 ^ 8) / 2 ^ (8 * rest.length)
          = V2 / 2 ^ (8 * rest.length) % 2 ^ 8 := Nat.mod_mul_right_div_self V2 _ _
      have hpow : 2 ^ (8 * rest.length) * 2 ^ 8 = 2 ^ (8 * (b :: rest).length) := by
        rw [← Nat.pow_add, hlen]; ring_nf
      rw [hpow] at e1 e2
      have : (256 : Nat) = 2 ^ 8 := by norm_num
      rw [this, ← e1, ← e2, h]
    have hrest : V1 % 2 ^ (8 * rest.length) = V2 % 2 ^ (8 * rest.length) := by
      have hdvd : 2 ^ (8 * rest.length) ∣ 2 ^ (8 * (b :: rest).length) := by
        apply Nat.pow_dvd_pow
        simp only [List.length_cons]
        omega
      calc V1 % 2 ^ (8 * rest.length)
          = V1 % 2 ^ (8 * (b :: rest).length) % 2 ^ (8 * rest.length) := (Nat.mod_mod_of_dvd V1 hdvd).symm
        _ = V2 % 2 ^ (8 * (b :: rest).length) % 2 ^ (8 * rest.length) := by rw [h]
        _ = V2 % 2 ^ (8 * rest.length) := Nat.mod_mod_of_dvd V2 hdvd
    simp only [updSlice]
    split
    · rw [hvb, ih _ _ hrest]
    · split
      · rw [hvb, ih _ _ hrest]
      · rw [hvb, ih _ _ hrest]

theorem shiftLeft_mod_pow (u t k : Nat) :
    (u <<< t) % 2 ^ (k + t) = (u % 2 ^ k) <<< t := by
  rw [Nat.shiftLeft_eq, Nat.shiftLeft_eq, Nat.pow_add, Nat.mul_mod_mul_right]

theorem updSlice_cons (V b : Nat) (rest : List Nat) (w bo : Nat) :
    updSlice V (b :: rest) w bo =
      (if w + bo ≤ 8 then
        (bandNot b (byteMask w <<< (8 - (bo + w))) ||| ((V >>> (8 * rest.length)) &&& 0xFF))
          :: updSlice V rest 0 bo
       else if bo = 0 then
        ((V >>> (8 * rest.length)) &&& 0xFF) :: updSlice V rest (w - 8) 0
       else
        (bandNot b (byteMask (8 - bo)) ||| ((V >>> (8 * rest.length)) &&& 0xFF))
          :: updSlice V rest (w - (8 - bo)) 0) := rfl

theorem extractLoop_zero_width (bytes : List Nat) (bo acc : Nat) :
    extractLoop bytes 0 bo acc = .ok acc := by
  unfold extractLoop
  simp

theorem extractLoop_cons (b0 : Nat) (rest : List Nat) (width bo acc : Nat) (h0 : width ≠ 0) :
    extractLoop (b0 :: rest) width bo acc =
      if width + bo ≤ 8 then
        .ok ((acc <<< pyShift width) + ((b0 >>> (7 - bo + 1 - width)) &&& byteMask width))
      else if bo = 0 then
        extractLoop rest (width - 8) 0 ((acc <<< 8) + b0)
      else
        extractLoop rest (width - (7 - bo + 1)) 0
          ((acc <<< pyShift (width - (7 - bo + 1))) + (b0 &&& byteMask (7 - bo + 1))) := by
  rw [extractLoop]
  simp [h0]

theorem shiftLeft_lt_pow {u w : Nat} (s : Nat) (hu : u < 2 ^ w) :
    u <<< s < 2 ^ (w + s) := by
  rw [Nat.shiftLeft_eq, Nat.pow_add]
  exact Nat.mul_lt_mul_of_lt_of_le hu (Nat.le_refl _) (Nat.pos_pow_of_pos s (by norm_num))


theorem updSlice_nil (V w bo : Nat) : updSlice V [] w bo = [] := rfl

/-- Aligned core of the round-trip: after reaching byte alignment,
writing the shifted value with `updSlice` and re-reading the produced
bytes with `extractLoop` recovers the value below the accumulator. -/
theorem extractLoop_updSlice_aligned :
    ∀ (os : List Nat) (width u acc : Nat),
      1 ≤ width → width ≤ 8 * os.length → 8 * os.length < width + 8 → u < 2 ^ width →
      extractLoop (updSlice (u <<< (8 * os.length - width)) os width 0) width 0 acc
        = .ok (acc * 2 ^ width + u) := by
  intro os
  induction os with
  | nil =>
    intro width u acc h1 h2 _ _
    simp at h2
    omega
  | cons b rest ih =>
    intro width u acc h1 h2 h3 hu
    have hlen : (b :: rest).length = rest.length + 1 := rfl
    rw [hlen] at h2 h3 ⊢
    by_cases hw8 : width ≤ 8
    · -- single byte: rest must be empty
      have hrnil : rest = [] := List.length_eq_zero.mp (by omega)
      subst hrnil
      simp only [List.length_nil] at h2 h3 ⊢
      have ht8 : 8 * (0 + 1) - width = 8 - width := by omega
      rw [ht8]
      rw [updSlice_cons]
      rw [if_pos (by omega : width + 0 ≤ 8)]
      have hVlt : u <<< (8 - width) < 2 ^ 8 := by
        have hb := shiftLeft_lt_pow (u := u) (w := width) (8 - width) hu
        have hwt : width + (8 - width) = 8 := by omega
        rw [hwt] at hb
        exact hb
      have hvb : (u <<< (8 - width)) >>> (8 * ([] : List Nat).length) &&& 0xFF
          = u <<< (8 - width) := by
        simp only [List.length_nil, Nat.mul_zero, Nat.shiftRight_zero]
        exact land_255_of_lt hVlt
      rw [hvb, updSlice_nil]
      rw [extractLoop_cons _ _ _ _ _ (by omega)]
      rw [if_pos (by omega : width + 0 ≤ 8)]
      have hlow : 7 - 0 + 1 - width = 8 - width := by omega
      have hshift : 8 - (0 + width) = 8 - width := by omega
      rw [hlow, hshift, byteMask_eq hw8, pyShift_eq h1 hw8]
      rw [mergeExtractByte b u width (8 - width) hu, Nat.shiftLeft_eq]
    · -- width > 8: consume one full byte and recurse
      have h9 : 9 ≤ width := by omega
      set k := width - 8 with hk
      set t := 8 * (rest.length + 1) - width with htdef
      have hkt : k + t = 8 * rest.length := by omega
      rw [updSlice_cons]
      rw [if_neg (by omega : ¬ width + 0 ≤ 8), if_pos rfl]
      rw [extractLoop_cons _ _ _ _ _ (by omega)]
      rw [if_neg (by omega : ¬ width + 0 ≤ 8), if_pos rfl]
      -- rename the tail through the low-bits congruence
      have hcongr : updSlice (u <<< t) rest (width - 8) 0
          = updSlice ((u % 2 ^ k) <<< t) rest (width - 8) 0 := by
        apply updSlice_mod_congr
        rw [← hkt, shiftLeft_mod_pow, shiftLeft_mod_pow]
        rw [Nat.mod_mod_of_dvd u dvd_rfl]
      have hvb : (u <<< t) >>> (8 * rest.length) &&& 0xFF = u / 2 ^ k := by
        have hdiv : (u <<< t) >>> (8 * rest.length) = u / 2 ^ k := by
          rw [Nat.shiftLeft_eq, Nat.shiftRight_eq_div_pow, ← hkt]
          rw [Nat.pow_add, Nat.mul_comm (2 ^ k) (2 ^ t)]
          rw [← Nat.div_div_eq_div_mul]
          rw [Nat.mul_div_cancel _ (Nat.pos_pow_of_pos t (by norm_num))]
        rw [hdiv]
        apply land_255_of_lt
        have : u / 2 ^ k < 2 ^ 8 := by
          rw [Nat.div_lt_iff_lt_mul (Nat.pos_pow_of_pos k (by norm_num))]
          rw [← Nat.pow_add]
          have : 8 + k = width := by omega
          rw [this]
          exact hu
        exact this
      rw [hvb, hcongr]
      have ht' : t = 8 * rest.length - (width - 8) := by omega
      rw [ht']
      rw [ih (width - 8) (u % 2 ^ k) ((acc <<< 8) + u / 2 ^ k) (by omega) (by omega) (by omega)
        (Nat.mod_lt _ (Nat.pos_pow_of_pos k (by norm_num)))]
      have hck : 8 + k = width := by omega
      have harith : ((acc <<< 8) + u / 2 ^ k) * 2 ^ (width - 8) + u % 2 ^ k
          = acc * 2 ^ width + u := by
        rw [← hk]
        calc ((acc <<< 8) + u / 2 ^ k) * 2 ^ k + u % 2 ^ k
            = (acc * 2 ^ 8 + u / 2 ^ k) * 2 ^ k + u % 2 ^ k := by rw [Nat.shiftLeft_eq]
          _ = acc * (2 ^ 8 * 2 ^ k) + (u / 2 ^ k * 2 ^ k + u % 2 ^ k) := by ring
          _ = acc * 2 ^ width + u := by rw [← Nat.pow_add, hck, Nat.div_add_mod']
      rw [harith]

theorem lor_bandNot_land (b m v : Nat) : (bandNot b m ||| v) &&& m = v &&& m := by
  apply Nat.eq_of_testBit_eq
  intro i
  rw [Nat.testBit_land, Nat.testBit_lor, bandNot_testBit, Nat.testBit_land]
  cases b.testBit i <;> cases m.testBit i <;> cases v.testBit i <;> rfl

/-- Entry point of the round-trip for the hard codec path: writing a value
`u` of `width` bits at bit offset `bo` into the byte window `os` with
`updSlice` and re-reading it with `extractLoop` returns `u` exactly. -/
theorem extractLoop_updSlice_entry
    (os : List Nat) (width bo u : Nat)
    (hbo : bo < 8) (h1 : 1 ≤ width)
    (h2 : width + bo ≤ 8 * os.length) (h3 : 8 * os.length < width + bo + 8)
    (hu : u < 2 ^ width) :
    extractLoop (updSlice (u <<< (8 * os.length - width - bo)) os width bo) width bo 0
      = .ok u := by
  by_cases hbo0 : bo = 0
  · subst hbo0
    have hz : 8 * os.length - width - 0 = 8 * os.length - width := by omega
    rw [hz]
    rw [extractLoop_updSlice_aligned os width u 0 h1 (by omega) (by omega) hu]
    simp
  · match os with
    | [] => simp at h2; omega
    | b :: rest =>
      have hlen : (b :: rest).length = rest.length + 1 := rfl
      rw [hlen] at h2 h3 ⊢
      set t := 8 * (rest.length + 1) - width - bo with htdef
      by_cases hsmall : width + bo ≤ 8
      · -- the field sits inside the first byte
        have hrnil : rest = [] := List.length_eq_zero.mp (by omega)
        subst hrnil
        simp only [List.length_nil] at h2 h3 htdef ⊢
        have hw8 : width ≤ 8 := by omega
        have hVlt : u <<< t < 2 ^ 8 := by
          have hb := shiftLeft_lt_pow (u := u) (w := width) t hu
          have : width + t ≤ 8 := by omega
          exact lt_of_lt_of_le hb (Nat.pow_le_pow_right (by norm_num) this)
        rw [updSlice_cons]
        rw [if_pos hsmall]
        have hvb : (u <<< t) >>> (8 * ([] : List Nat).length) &&& 0xFF = u <<< t := by
          simp only [List.length_nil, Nat.mul_zero, Nat.shiftRight_zero]
          exact land_255_of_lt hVlt
        rw [hvb, updSlice_nil]
        rw [extractLoop_cons _ _ _ _ _ (by omega)]
        rw [if_pos hsmall]
        have hlow : 7 - bo + 1 - width = t := by omega
        have hshift : 8 - (bo + width) = t := by omega
        rw [hlow, hshift, byteMask_eq hw8]
        rw [Nat.zero_shiftLeft, Nat.zero_add]
        rw [mergeExtractByte b u width t hu]
      · -- the field crosses the first byte boundary
        have h8bo : 7 - bo + 1 = 8 - bo := by omega
        set w2 := width - (8 - bo) with hw2def
        have hw2 : w2 + (8 - bo) = width := by omega
        have hkt : w2 + t = 8 * rest.length := by omega
        rw [updSlice_cons]
        rw [if_neg hsmall, if_neg hbo0]
        rw [extractLoop_cons _ _ _ _ _ (by omega)]
        rw [if_neg hsmall, if_neg hbo0]
        rw [h8bo, ← hw2def]
        rw [Nat.zero_shiftLeft, Nat.zero_add]
        -- the first-byte accumulator is exactly the top bits of u
        have hvbdiv : (u <<< t) >>> (8 * rest.length) = u / 2 ^ w2 := by
          rw [Nat.shiftLeft_eq, Nat.shiftRight_eq_div_pow, ← hkt]
          rw [Nat.pow_add, Nat.mul_comm (2 ^ w2) (2 ^ t)]
          rw [← Nat.div_div_eq_div_mul]
          rw [Nat.mul_div_cancel _ (Nat.pos_pow_of_pos t (by norm_num))]
        have hdivlt : u / 2 ^ w2 < 2 ^ (8 - bo) := by
          rw [Nat.div_lt_iff_lt_mul (Nat.pos_pow_of_pos w2 (by norm_num))]
          rw [← Nat.pow_add]
          have heq : 8 - bo + w2 = width := by omega
          rw [heq]
          exact hu
        have hvb : (u <<< t) >>> (8 * rest.length) &&& 0xFF = u / 2 ^ w2 := by
          rw [hvbdiv]
          apply land_255_of_lt
          have h256 : (256 : Nat) = 2 ^ 8 := by norm_num
          rw [h256]
          exact lt_of_lt_of_le hdivlt (Nat.pow_le_pow_right (by norm_num) (by omega))
        rw [hvb]
        have hacc : (bandNot b (byteMask (8 - bo)) ||| u / 2 ^ w2) &&& byteMask (8 - bo)
            = u / 2 ^ w2 := by
          rw [lor_bandNot_land, byteMask_eq (by omega : 8 - bo ≤ 8)]
          rw [land_two_pow_sub_one, Nat.mod_eq_of_lt hdivlt]
        rw [hacc]
        have hcongr : updSlice (u <<< t) rest w2 0
            = updSlice ((u % 2 ^ w2) <<< t) rest w2 0 := by
          apply updSlice_mod_congr
          rw [← hkt, shiftLeft_mod_pow, shiftLeft_mod_pow]
          rw [Nat.mod_mod_of_dvd u dvd_rfl]
        rw [hcongr]
        have ht' : t = 8 * rest.length - w2 := by omega
        rw [ht']
        rw [extractLoop_updSlice_aligned rest w2 (u % 2 ^ w2) (u / 2 ^ w2) (by omega) (by omega)
          (by omega) (Nat.mod_lt _ (Nat.pos_pow_of_pos w2 (by norm_num)))]
        rw [Nat.div_add_mod']

theorem get?_append_cons (bl1 : List Nat) (b : Nat) (bl2 : List Nat) :
    (bl1 ++ b :: bl2).get? bl1.length = some b := by
  induction bl1 with
  | nil => rfl
  | cons x xs ih => simpa using ih

theorem set_append_cons (bl1 : List Nat) (b nb : Nat) (bl2 : List Nat) :
    (bl1 ++ b :: bl2).set bl1.length nb = bl1 ++ nb :: bl2 := by
  induction bl1 with
  | nil => rfl
  | cons x xs ih => simp [List.set, ih]

/-- `updateHardLoop` on the full byte list is the splice of `updSlice`
over the window it writes: the prefix `bl1` (everything before the current
index) and the suffix `bl2` (everything after the window) are untouched. -/
theorem updateHardLoop_splice (base n V : Nat) :
    ∀ (os bl1 bl2 : List Nat) (width bo : Nat),
      os.length ≤ n → bl1.length = base + (n - os.length) →
      updateHardLoop base n V os.length width bo (bl1 ++ os ++ bl2)
        = .ok (bl1 ++ updSlice V os width bo ++ bl2) := by
  intro os
  induction os with
  | nil =>
    intro bl1 bl2 width bo _ _
    simp [updateHardLoop, updSlice_nil]
  | cons b rest ih =>
    intro bl1 bl2 width bo hkn hb1
    have hlen : (b :: rest).length = rest.length + 1 := rfl
    rw [hlen] at hkn hb1
    have hassoc : bl1 ++ (b :: rest) ++ bl2 = bl1 ++ b :: (rest ++ bl2) := by simp
    have hget : pyGet (bl1 ++ b :: (rest ++ bl2)) bl1.length = .ok b := by
      unfold pyGet
      rw [get?_append_cons]
    have hsetlen : bl1.length < (bl1 ++ b :: (rest ++ bl2)).length := by
      simp
    have hset : ∀ nb, pySet (bl1 ++ b :: (rest ++ bl2)) bl1.length nb
        = .ok (bl1 ++ nb :: (rest ++ bl2)) := by
      intro nb
      unfold pySet
      rw [if_pos hsetlen, set_append_cons]
    have hreassoc : ∀ nb, bl1 ++ nb :: (rest ++ bl2) = (bl1 ++ [nb]) ++ rest ++ bl2 := by
      intro nb
      simp
    have hib : ∀ nb, ((bl1 : List Nat) ++ [nb]).length = base + (n - rest.length) := by
      intro nb
      simp
      omega
    have hout : ∀ nb w2 bo2, bl1 ++ (nb :: updSlice V rest w2 bo2) ++ bl2
        = (bl1 ++ [nb]) ++ updSlice V rest w2 bo2 ++ bl2 := by
      intro nb w2 bo2
      simp
    rw [hlen, hassoc]
    rw [updateHardLoop]
    simp only []
    have hidx : base + (n - (rest.length + 1)) = bl1.length := hb1.symm
    have hvbidx : n - 1 - (n - (rest.length + 1)) = rest.length := by omega
    rw [hidx, hvbidx]
    rw [updSlice_cons]
    by_cases hc1 : width + bo ≤ 8
    · rw [if_pos hc1, if_pos hc1]
      rw [hget]
      simp only []
      rw [hset]
      simp only []
      rw [hreassoc, hout]
      exact ih (bl1 ++ [_]) bl2 0 bo (by omega) (hib _)
    · rw [if_neg hc1, if_neg hc1]
      by_cases hc2 : bo = 0
      · rw [if_pos hc2, if_pos hc2]
        rw [hset]
        simp only []
        rw [hreassoc, hout]
        exact ih (bl1 ++ [_]) bl2 (width - 8) 0 (by omega) (hib _)
      · rw [if_neg hc2, if_neg hc2]
        rw [hget]
        simp only []
        rw [hset]
        simp only []
        rw [hreassoc, hout]
        exact ih (bl1 ++ [_]) bl2 (width - (8 - bo)) 0 (by omega) (hib _)

theorem take_set_of_le (l : List Nat) : ∀ (i m x : Nat), m ≤ i → (l.set i x).take m = l.take m := by
  induction l with
  | nil => intro i m x _; simp
  | cons y ys ih =>
    intro i m x hmi
    match i, m with
    | _, 0 => simp
    | 0, m + 1 => omega
    | i + 1, m + 1 =>
      simp only [List.set, List.take]
      rw [ih i m x (by omega)]

theorem drop_set_self (l : List Nat) : ∀ (i x : Nat), i < l.length → (l.set i x).drop i = x :: l.drop (i + 1) := by
  induction l with
  | nil => intro i x h; simp at h
  | cons y ys ih =>
    intro i x h
    match i with
    | 0 => simp
    | i + 1 =>
      simp only [List.set, List.drop]
      rw [ih i x (by simpa using Nat.lt_of_succ_lt_succ h)]

theorem beBytes_shift_append (v : Nat) : ∀ k, beBytes v (k + 1) = beBytes (v >>> 8) k ++ [v &&& 0xFF] := by
  intro k
  induction k with
  | zero => simp [beBytes]
  | succ k ih =>
    have h1 : beBytes v (k + 1 + 1) = ((v >>> (8 * (k + 1))) &&& 0xFF) :: beBytes v (k + 1) := rfl
    have h2 : beBytes (v >>> 8) (k + 1) = (((v >>> 8) >>> (8 * k)) &&& 0xFF) :: beBytes (v >>> 8) k := rfl
    rw [h1, h2, ih]
    have h3 : (v >>> 8) >>> (8 * k) = v >>> (8 * (k + 1)) := by
      rw [← Nat.shiftRight_add]
      congr 1
      ring
    rw [h3]
    rfl

/-- The byte-aligned write loop produces the big-endian bytes of the value
spliced into the byte list. -/
theorem updateEasyLoop_splice (base : Nat) :
    ∀ (k v : Nat) (bl : List Nat), base + k ≤ bl.length →
      updateEasyLoop base k v bl
        = .ok (bl.take base ++ beBytes v k ++ bl.drop (base + k)) := by
  intro k
  induction k with
  | zero =>
    intro v bl _
    simp [updateEasyLoop, beBytes, List.take_append_drop]
  | succ k ih =>
    intro v bl hlen
    rw [updateEasyLoop]
    have hin : base + k < bl.length := by omega
    unfold pySet
    rw [if_pos hin]
    simp only []
    rw [ih (v >>> 8) (bl.set (base + k) (v &&& 0xff)) (by simp; omega)]
    rw [take_set_of_le bl (base + k) base (v &&& 0xff) (by omega)]
    rw [drop_set_self bl (base + k) (v &&& 0xff) hin]
    rw [beBytes_shift_append]
    simp
    rw [Nat.add_assoc]

theorem bytesToNatBE_beBytes (v : Nat) : ∀ k, bytesToNatBE (beBytes v k) = v % 2 ^ (8 * k) := by
  intro k
  induction k with
  | zero => simp [beBytes, bytesToNatBE, Nat.mod_one]
  | succ k ih =>
    have h1 : beBytes v (k + 1) = ((v >>> (8 * k)) &&& 0xFF) :: beBytes v k := rfl
    rw [h1]
    have h2 : bytesToNatBE (((v >>> (8 * k)) &&& 0xFF) :: beBytes v k)
        = ((v >>> (8 * k)) &&& 0xFF) <<< (8 * (beBytes v k).length) + bytesToNatBE (beBytes v k) := rfl
    rw [h2, beBytes_length, ih, land_255, Nat.shiftRight_eq_div_pow, Nat.shiftLeft_eq]
    have hmul : (2 : Nat) ^ (8 * (k + 1)) = 2 ^ (8 * k) * 2 ^ 8 := by
      rw [← Nat.pow_add]
      ring_nf
    rw [hmul, Nat.mod_mul]
    have h256 : (256 : Nat) = 2 ^ 8 := by norm_num
    rw [h256]
    ring

theorem bytesToNatBE_beBytes_of_lt {v k : Nat} (h : v < 2 ^ (8 * k)) :
    bytesToNatBE (beBytes v k) = v := by
  rw [bytesToNatBE_beBytes, Nat.mod_eq_of_lt h]

theorem beBytes_mem_lt (v : Nat) : ∀ k, ∀ x ∈ beBytes v k, x < 256 := by
  intro k
  induction k with
  | zero => intro x hx; simp [beBytes] at hx
  | succ k ih =>
    intro x hx
    have h1 : beBytes v (k + 1) = ((v >>> (8 * k)) &&& 0xFF) :: beBytes v k := rfl
    rw [h1] at hx
    rcases List.mem_cons.mp hx with h | h
    · subst h
      rw [land_255]
      exact Nat.mod_lt _ (by norm_num)
    · exact ih x h

theorem extract_single_byte (b acc : Nat) (hb : b < 256) :
    extractLoop [b] 8 0 acc = .ok (acc * 256 + b) := by
  rw [extractLoop_cons _ _ _ _ _ (by norm_num)]
  rw [if_pos (by norm_num : (8 : Nat) + 0 ≤ 8)]
  have hshape : pyShift 8 = 8 := rfl
  have hmask : byteMask 8 = 255 := rfl
  have hlow : 7 - 0 + 1 - 8 = 0 := by norm_num
  rw [hshape, hmask, hlow, Nat.shiftRight_zero, land_255_of_lt hb, Nat.shiftLeft_eq]

/-- Extraction of a whole-byte-aligned window (`width = 8 * length`,
offset 0) through the general loop is big-endian byte assembly. -/
theorem extractLoop_bytes :
    ∀ (os : List Nat) (acc : Nat), os ≠ [] → (∀ x ∈ os, x < 256) →
      extractLoop os (8 * os.length) 0 acc = .ok (acc * 2 ^ (8 * os.length) + bytesToNatBE os) := by
  intro os
  induction os with
  | nil => intro acc h _; exact absurd rfl h
  | cons b rest ih =>
    intro acc _ hmem
    have hb : b < 256 := hmem b (List.mem_cons_self b rest)
    match rest with
    | [] =>
      have hl1 : 8 * ([b] : List Nat).length = 8 := by simp
      rw [hl1, extract_single_byte b acc hb]
      have hbe : bytesToNatBE [b] = b := by simp [bytesToNatBE]
      rw [hbe]
      norm_num
    | c :: rest2 =>
      have hlen : (b :: c :: rest2).length = (c :: rest2).length + 1 := rfl
      rw [hlen]
      rw [extractLoop_cons _ _ _ _ _ (Nat.mul_ne_zero (by norm_num) (Nat.succ_ne_zero _))]
      rw [if_neg (by simp only [List.length_cons]; omega : ¬ 8 * ((c :: rest2).length + 1) + 0 ≤ 8),
        if_pos rfl]
      have hw : 8 * ((c :: rest2).length + 1) - 8 = 8 * (c :: rest2).length := by
        simp only [List.length_cons]
        omega
      rw [hw]
      rw [ih ((acc <<< 8) + b) (by simp) (fun x hx => hmem x (List.mem_cons_of_mem b hx))]
      have hbe : bytesToNatBE (b :: c :: rest2)
          = b <<< (8 * (c :: rest2).length) + bytesToNatBE (c :: rest2) := rfl
      rw [hbe]
      rw [Nat.shiftLeft_eq, Nat.shiftLeft_eq]
      have hp : (2 : Nat) ^ (8 * ((c :: rest2).length + 1)) = 2 ^ 8 * 2 ^ (8 * (c :: rest2).length) := by
        rw [← Nat.pow_add]
        ring_nf
      rw [hp]
      ring_nf

theorem pySlice_mid (A B C : List Nat) :
    pySlice (A ++ B ++ C) A.length (A.length + B.length) = B := by
  unfold pySlice
  rw [List.append_assoc, List.take_add, List.take_left, List.drop_left, List.drop_left,
    List.take_left]

theorem buf_split (buf : List Nat) (base n : Nat) :
    buf = buf.take base ++ (buf.drop base).take n ++ buf.drop (base + n) := by
  have h1 : buf.take (base + n) = buf.take base ++ (buf.drop base).take n :=
    List.take_add buf base n
  calc buf = buf.take (base + n) ++ buf.drop (base + n) := (List.take_append_drop _ _).symm
    _ = buf.take base ++ (buf.drop base).take n ++ buf.drop (base + n) := by rw [h1]

theorem extractGeneral_width_zero (buf : List Nat) (ho byo bo : Nat) :
    extractGeneral buf ho byo bo 0 = .ok (.int 0) := by
  unfold extractGeneral
  rw [if_pos (by norm_num)]
  simp only [extractLoop_zero_width]
  rfl

theorem extract_width_zero (buf : List Nat) (ho bit : Nat) :
    extract buf ho bit 0 = .ok (.int 0) := by
  simp only [extract]
  by_cases hbo : bit % 8 = 0
  · rw [if_pos hbo, if_neg (by norm_num : (0 : Nat) ≠ 8), if_neg (by norm_num : (0 : Nat) ≠ 16),
      if_neg (by norm_num : (0 : Nat) ≠ 32), if_neg (by norm_num : (0 : Nat) ≠ 64),
      if_neg (by norm_num : ¬ (0 : Nat) > 64)]
    exact extractGeneral_width_zero _ _ _ _
  · rw [if_neg hbo]
    exact extractGeneral_width_zero _ _ _ _

theorem extract_general_path (buf : List Nat) (bit w : Nat)
    (hgen : ¬(bit % 8 = 0 ∧ w % 8 = 0)) (hw : w ≤ 32) :
    extract buf 0 bit w = extractGeneral buf 0 (0 + bit / 8) (bit % 8) w := by
  simp only [extract]
  by_cases hbo : bit % 8 = 0
  · have hw8 : w % 8 ≠ 0 := fun h => hgen ⟨hbo, h⟩
    rw [if_pos hbo, if_neg (by omega : w ≠ 8), if_neg (by omega : w ≠ 16),
      if_neg (by omega : w ≠ 32), if_neg (by omega : w ≠ 64), if_neg (by omega : ¬ w > 64)]
  · rw [if_neg hbo]

theorem unpack_easy (A C : List Nat) (v k : Nat) (hv : v < 2 ^ (8 * k)) :
    structUnpackBE (pySlice (A ++ beBytes v k ++ C) A.length (A.length + k)) k = .ok v := by
  have hB : (beBytes v k).length = k := beBytes_length v k
  have hsl : pySlice (A ++ beBytes v k ++ C) A.length (A.length + k) = beBytes v k := by
    have h := pySlice_mid A (beBytes v k) C
    rw [hB] at h
    exact h
  rw [hsl]
  unfold structUnpackBE
  rw [if_pos hB, bytesToNatBE_beBytes_of_lt hv]

theorem extract_path_24 (buf : List Nat) (bit : Nat) (hbo : bit % 8 = 0) :
    extract buf 0 bit 24 = extractGeneral buf 0 (0 + bit / 8) (bit % 8) 24 := by
  simp only [extract]
  rw [if_pos hbo, if_neg (by norm_num : (24 : Nat) ≠ 8), if_neg (by norm_num : (24 : Nat) ≠ 16),
    if_neg (by norm_num : (24 : Nat) ≠ 32), if_neg (by norm_num : (24 : Nat) ≠ 64),
    if_neg (by norm_num : ¬ (24 : Nat) > 64)]

/-- Round trip through the hard (bit-shifting) paths of the codec. -/
theorem roundtrip_hard (w b v : Nat) (buf : List Nat) (hw : w ≤ 32) (hb : b ≤ 31)
    (h1w : 1 ≤ w) (hgen : ¬(b % 8 = 0 ∧ w % 8 = 0)) (hv : v < 2 ^ w)
    (hlen : buf.length = 8) :
    ∃ buf2, update_header_bytes buf b w (.int v) = .ok buf2 ∧
      extract buf2 0 b w = .ok (.int v) := by
  have hbo7 : b % 8 < 8 := by omega
  have hbn : b / 8 + (w + b % 8 + 7) / 8 ≤ 8 := by omega
  have hA : (buf.take (b / 8)).length = b / 8 := by
    rw [List.length_take]
    omega
  have hos : ((buf.drop (b / 8)).take ((w + b % 8 + 7) / 8)).length = (w + b % 8 + 7) / 8 := by
    rw [List.length_take, List.length_drop]
    omega
  have hsplit : buf = buf.take (b / 8) ++ (buf.drop (b / 8)).take ((w + b % 8 + 7) / 8)
      ++ buf.drop (b / 8 + (w + b % 8 + 7) / 8) := buf_split buf _ _
  have hshift : (if 8 - ((b % 8 + w) % 8) = 8 then 0 else 8 - ((b % 8 + w) % 8))
      = 8 * ((w + b % 8 + 7) / 8) - w - b % 8 := by
    by_cases hc : 8 - ((b % 8 + w) % 8) = 8
    · rw [if_pos hc]
      omega
    · rw [if_neg hc]
      omega
  refine ⟨buf.take (b / 8)
      ++ updSlice (v <<< (8 * ((w + b % 8 + 7) / 8) - w - b % 8))
           ((buf.drop (b / 8)).take ((w + b % 8 + 7) / 8)) w (b % 8)
      ++ buf.drop (b / 8 + (w + b % 8 + 7) / 8), ?_, ?_⟩
  · unfold update_header_bytes
    rw [if_neg (by omega : ¬ w = 0)]
    show (if b % 8 = 0 ∧ w % 8 = 0 then updateEasyLoop (b / 8) (w / 8) v buf
          else updateHardLoop (b / 8) ((w + b % 8 + 7) / 8)
            (v <<< (if 8 - ((b % 8 + w) % 8) = 8 then 0 else 8 - ((b % 8 + w) % 8)))
            ((w + b % 8 + 7) / 8) w (b % 8) buf) = _
    rw [if_neg hgen, hshift]
    conv_lhs => rw [hsplit]
    have hsp := updateHardLoop_splice (b / 8) ((w + b % 8 + 7) / 8)
      (v <<< (8 * ((w + b % 8 + 7) / 8) - w - b % 8))
      ((buf.drop (b / 8)).take ((w + b % 8 + 7) / 8))
      (buf.take (b / 8)) (buf.drop (b / 8 + (w + b % 8 + 7) / 8)) w (b % 8)
      (le_of_eq hos) (by rw [hA, hos]; omega)
    rw [hos] at hsp
    exact hsp
  · rw [extract_general_path _ b w hgen hw]
    unfold extractGeneral
    rw [if_pos (by omega : w < 64)]
    have hzz : 0 + (0 + b / 8) = b / 8 := by omega
    show (extractLoop (pySlice _ (0 + (0 + b / 8)) (0 + (0 + b / 8) + (w + b % 8 + 7) / 8))
      w (b % 8) 0).map FieldVal.int = _
    rw [hzz]
    have hout_len : (updSlice (v <<< (8 * ((w + b % 8 + 7) / 8) - w - b % 8))
        ((buf.drop (b / 8)).take ((w + b % 8 + 7) / 8)) w (b % 8)).length
        = (w + b % 8 + 7) / 8 := by
      rw [updSlice_length, hos]
    have hsl := pySlice_mid (buf.take (b / 8))
      (updSlice (v <<< (8 * ((w + b % 8 + 7) / 8) - w - b % 8))
        ((buf.drop (b / 8)).take ((w + b % 8 + 7) / 8)) w (b % 8))
      (buf.drop (b / 8 + (w + b % 8 + 7) / 8))
    rw [hA, hout_len] at hsl
    rw [hsl]
    have hE := extractLoop_updSlice_entry ((buf.drop (b / 8)).take ((w + b % 8 + 7) / 8))
      w (b % 8) v hbo7 h1w (by rw [hos]; omega) (by rw [hos]; omega) hv
    rw [hos] at hE
    rw [hE]
    rfl

/-- Round trip through the byte-aligned fast paths of the codec. -/
theorem roundtrip_easy (w b v : Nat) (buf : List Nat) (hw : w ≤ 32) (hb : b ≤ 31)
    (h1w : 1 ≤ w) (hbo0 : b % 8 = 0) (hw8 : w % 8 = 0) (hv : v < 2 ^ w)
    (hlen : buf.length = 8) :
    ∃ buf2, update_header_bytes buf b w (.int v) = .ok buf2 ∧
      extract buf2 0 b w = .ok (.int v) := by
  have hbn : b / 8 + w / 8 ≤ 8 := by omega
  have hupd : update_header_bytes buf b w (.int v) = updateEasyLoop (b / 8) (w / 8) v buf := by
    unfold update_header_bytes
    rw [if_neg (by omega : ¬ w = 0)]
    show (if b % 8 = 0 ∧ w % 8 = 0 then updateEasyLoop (b / 8) (w / 8) v buf
          else updateHardLoop (b / 8) ((w + b % 8 + 7) / 8)
            (v <<< (if 8 - ((b % 8 + w) % 8) = 8 then 0 else 8 - ((b % 8 + w) % 8)))
            ((w + b % 8 + 7) / 8) w (b % 8) buf) = _
    rw [if_pos ⟨hbo0, hw8⟩]
  rw [hupd, updateEasyLoop_splice (b / 8) (w / 8) v buf (by omega)]
  refine ⟨_, rfl, ?_⟩
  have hA : (buf.take (b / 8)).length = b / 8 := by
    rw [List.length_take]
    omega
  have hwc : w = 8 ∨ w = 16 ∨ w = 24 ∨ w = 32 := by omega
  rcases hwc with hw' | hw' | hw' | hw'
  · subst hw'
    have hk : (8 : Nat) / 8 = 1 := rfl
    rw [hk]
    simp only [extract]
    rw [if_pos hbo0, if_true]
    have hz : 0 + b / 8 = b / 8 := by omega
    rw [hz]
    have hun := unpack_easy (buf.take (b / 8)) (buf.drop (b / 8 + 1)) v 1
      (by norm_num at hv ⊢; omega)
    rw [hA] at hun
    rw [hun]
    rfl
  · subst hw'
    have hk : (16 : Nat) / 8 = 2 := rfl
    rw [hk]
    simp only [extract]
    rw [if_pos hbo0, if_neg (by norm_num : (16 : Nat) ≠ 8), if_true]
    have hz : 0 + b / 8 = b / 8 := by omega
    rw [hz]
    have hun := unpack_easy (buf.take (b / 8)) (buf.drop (b / 8 + 2)) v 2
      (by norm_num at hv ⊢; omega)
    rw [hA] at hun
    rw [hun]
    rfl
  · subst hw'
    have hk : (24 : Nat) / 8 = 3 := rfl
    rw [hk]
    rw [extract_path_24 _ b hbo0]
    unfold extractGeneral
    rw [if_pos (by norm_num : (24 : Nat) < 64)]
    have hbn3 : (24 + b % 8 + 7) / 8 = 3 := by omega
    have hzz : 0 + (0 + b / 8) = b / 8 := by omega
    show (extractLoop (pySlice _ (0 + (0 + b / 8)) (0 + (0 + b / 8) + (24 + b % 8 + 7) / 8))
      24 (b % 8) 0).map FieldVal.int = _
    rw [hbn3, hzz, hbo0]
    have hB3 : (beBytes v 3).length = 3 := beBytes_length v 3
    have hsl := pySlice_mid (buf.take (b / 8)) (beBytes v 3) (buf.drop (b / 8 + 3))
    rw [hA, hB3] at hsl
    rw [hsl]
    have hext := extractLoop_bytes (beBytes v 3) 0 (by
        intro hnil
        have := congrArg List.length hnil
        rw [hB3] at this
        simp at this)
      (beBytes_mem_lt v 3)
    rw [hB3] at hext
    have h24 : 8 * 3 = 24 := by norm_num
    rw [h24] at hext
    rw [hext]
    rw [bytesToNatBE_beBytes_of_lt (by norm_num at hv ⊢; omega)]
    simp [Except.map]
  · subst hw'
    have hk : (32 : Nat) / 8 = 4 := rfl
    rw [hk]
    simp only [extract]
    rw [if_pos hbo0, if_neg (by norm_num : (32 : Nat) ≠ 8), if_neg (by norm_num : (32 : Nat) ≠ 16),
      if_true]
    have hz : 0 + b / 8 = b / 8 := by omega
    rw [hz]
    have hun := unpack_easy (buf.take (b / 8)) (buf.drop (b / 8 + 4)) v 4
      (by norm_num at hv ⊢; omega)
    rw [hA] at hun
    rw [hun]
    rfl

/-- Round trip over any 8-byte buffer. -/
theorem roundtrip_buf8 (w b v : Nat) (buf : List Nat) (hw : w ≤ 32) (hb : b ≤ 31)
    (hv : v < 2 ^ w) (hlen : buf.length = 8) :
    ∃ buf2, update_header_bytes buf b w (.int v) = .ok buf2 ∧
      extract buf2 0 b w = .ok (.int v) := by
  by_cases hw0 : w = 0
  · subst hw0
    have hv0 : v = 0 := by
      have h1 : (2 : Nat) ^ 0 = 1 := rfl
      omega
    subst hv0
    refine ⟨buf, ?_, extract_width_zero buf 0 b⟩
    rfl
  · by_cases heasy : b % 8 = 0 ∧ w % 8 = 0
    · exact roundtrip_easy w b v buf hw hb (by omega) heasy.1 heasy.2 hv hlen
    · exact roundtrip_hard w b v buf hw hb (by omega) heasy hv hlen

/-- Claim C1: field codec round-trip.  For every width `w ≤ 32`, bit
offset `b ≤ 31` and value `v < 2 ^ w`, calling
`field_instance.update_header_bytes` (insert) with value `v` at offset `b`
into an 8-byte scratch buffer prefilled with all-zero bytes, and then
`field_instance.extract` from that buffer at `header_offset` 0 and the
same bit offset `b`, returns exactly `v`; the same holds when the scratch
buffer is prefilled with all-one (0xFF) bytes. -/
theorem field_roundtrip_insert_extract (w b v : Nat) (buf : List Nat)
    (hw : w ≤ 32) (hb : b ≤ 31) (hv : v < 2 ^ w)
    (hbuf : buf = List.replicate 8 0 ∨ buf = List.replicate 8 0xFF) :
    ∃ buf2, update_header_bytes buf b w (.int v) = .ok buf2 ∧
      extract buf2 0 b w = .ok (.int v) := by
  have hlen : buf.length = 8 := by
    rcases hbuf with h | h <;> simp [h]
  exact roundtrip_buf8 w b v buf hw hb hv hlen

/-- Witness for C1 at a concrete input: width 11, offset 13, value 1445,
all-zero scratch buffer. -/
theorem field_roundtrip_insert_extract_witness :
    ∃ buf2, update_header_bytes (List.replicate 8 0) 13 11 (.int 1445) = .ok buf2 ∧
      extract buf2 0 13 11 = .ok (.int 1445) :=
  field_roundtrip_insert_extract 11 13 1445 (List.replicate 8 0)
    (by decide) (by decide) (by decide) (Or.inl rfl)

/-! ### Claims C3-C10 -/

/-- Claim C3 (code bug): when some entry of a table matches the packet,
`Table.process_packet` does not complete: after incrementing the packet
counter it evaluates `parsed_packet.length()`, and `ParsedPacket` defines
no attribute or method named `length`, so an `AttributeError` is raised
with the packet counter incremented by 1 and the byte counter
unchanged — contradicting the claimed postcondition that the byte
counter grows by the serialized length and the call completes without
raising. -/
theorem table_counter_match_raises (t : TableM) (am : List (String × ActionM))
    (p : ParsedPacketM) (r : String × List (String × FieldVal))
    (hscan : scanEntries p t.entries = .ok (some r)) :
    (processPacketT t am p).2 = .error .attributeError ∧
    (processPacketT t am p).1.packet_count = t.packet_count + 1 ∧
    (processPacketT t am p).1.byte_count = t.byte_count := by
  unfold processPacketT
  rw [hscan]
  exact ⟨rfl, rfl, rfl⟩

/-- Witness for C3 at a concrete table and packet. -/
theorem table_counter_match_raises_witness :
    (processPacketT tblFix [] pktH).2 = .error .attributeError ∧
    (processPacketT tblFix [] pktH).1.packet_count = tblFix.packet_count + 1 ∧
    (processPacketT tblFix [] pktH).1.byte_count = tblFix.byte_count :=
  table_counter_match_raises tblFix [] pktH ("fwd", []) (by decide)

/-- Claim C4 (code bug): a multicast egress specification (bit 28 set,
not the drop sentinel) never reaches the multicast map:
`map_egress_spec` evaluates `self.multicast_map.keys()` on the list
`multicast_map` and raises `AttributeError`, so `process` raises instead
of enqueuing one packet per destination. -/
theorem tm_multicast_raises (tm : SimpleQueueManagerM) (p : ParsedPacketM) (spec : Nat)
    (hfld : p.get_fieldP "intrinsic_metadata.egress_specification" = some (.int spec))
    (hnd : spec ≠ 0xffffffff) (hmc : spec &&& 0x10000000 ≠ 0) :
    processQ tm p = .error .attributeError := by
  unfold processQ map_egress_specQ
  rw [hfld]
  simp only [if_neg hnd, if_neg hmc]

/-- Witness for C4: egress specification `0x10000005` (multicast group 5). -/
theorem tm_multicast_raises_witness :
    processQ tmFix (mdPkt 0x10000005) = .error .attributeError :=
  tm_multicast_raises tmFix (mdPkt 0x10000005) 0x10000005 (by decide) (by decide) (by decide)

/-- Claim C5 (code bug): `ParsedPacket.replicate` assigns the fresh id to
the ORIGINAL packet (`self.id = ParsedPacket.id_next`), so the replica
keeps the source packet id, the source packet is mutated, `parent_id`
records the new id of the original rather than the id the source had,
and the deep copy of the header map is bound to the attribute `headers`
that nothing reads, so the replica still shares the `header_map`
reference with the original. -/
theorem replicate_id_and_sharing_bug (p : PPacketObj) (id_next fresh : Nat)
    (hid : p.id ≠ id_next) :
    (replicateObj p id_next fresh).1.id = id_next ∧
    (replicateObj p id_next fresh).2.1.id = p.id ∧
    (replicateObj p id_next fresh).2.1.parent_id = some id_next ∧
    (replicateObj p id_next fresh).2.1.header_map = p.header_map ∧
    (replicateObj p id_next fresh).2.1.id ≠ (replicateObj p id_next fresh).1.id ∧
    (replicateObj p id_next fresh).2.1.parent_id ≠ some p.id := by
  refine ⟨rfl, rfl, rfl, rfl, ?_, ?_⟩
  · exact hid
  · intro h
    exact hid (Option.some.inj h).symm

/-- Witness for C5 at a concrete object and id counter. -/
theorem replicate_id_and_sharing_bug_witness :
    (replicateObj pObjFix 1 200).1.id = 1 ∧
    (replicateObj pObjFix 1 200).2.1.id = pObjFix.id ∧
    (replicateObj pObjFix 1 200).2.1.parent_id = some 1 ∧
    (replicateObj pObjFix 1 200).2.1.header_map = pObjFix.header_map ∧
    (replicateObj pObjFix 1 200).2.1.id ≠ (replicateObj pObjFix 1 200).1.id ∧
    (replicateObj pObjFix 1 200).2.1.parent_id ≠ some pObjFix.id :=
  replicate_id_and_sharing_bug pObjFix 1 200 (by decide)

/-- Claim C6 (code bug): on a hit whose action has no labelled edge and
with no `"hit"` edge, the resolution evaluates
`"default" in transition.keys()`, and the name `transition` is undefined
(the map is `transitions`), so a `NameError` is raised instead of taking
the `"default"` edge or exiting. -/
theorem pipeline_hit_default_raises (transitions : List (String × String)) (a : String)
    (hal : dictContains transitions "always" = false)
    (hact : dictContains transitions a = false)
    (hhit : dictContains transitions "hit" = false) :
    resolveNextTable transitions true (some a) = .error .nameError := by
  unfold resolveNextTable
  simp [hal, hact, hhit]

/-- Witness for C6: a transition map with only a `"miss"` edge. -/
theorem pipeline_hit_default_raises_witness :
    resolveNextTable [("miss", "t3")] true (some "act") = .error .nameError :=
  pipeline_hit_default_raises [("miss", "t3")] "act" (by decide) (by decide) (by decide)

/-- Claim C7 (code bug): for an integer select value with no specific
entry, the positive value-set step tests membership of the value in the
value-set NAME (the loop iterates `in_value_sets.items()` whose keys are
names), and `int in str` raises `TypeError` in Python 2; the member sets
are never consulted. -/
theorem parser_value_set_raises (tr : ParserStateTransitionM) (v : Nat)
    (hnv : tr.value_map.any (fun q => q.1 = v) = false)
    (hne : tr.in_value_sets ≠ []) :
    next_stateP tr (some v) = .error .typeError := by
  unfold next_stateP
  simp [hnv, hne]

/-- Witness for C7: select value 3 against a state with one positive
value set. -/
theorem parser_value_set_raises_witness :
    next_stateP trFix (some 3) = .error .typeError :=
  parser_value_set_raises trFix 3 (by decide) (by decide)

/-- Claim C10 (code bug): the header-mutating primitives are stubs.
`IriPrimitiveRemoveHeader.eval` is `pass`, so evaluating an action whose
primitive list is `remove_header(h)` returns the packet unchanged and
the header is still present; `IriPrimitiveAddHeader.eval` calls
`parsed_packet.add_header(...)`, a method `ParsedPacket` does not define,
so the action raises `AttributeError` and no header is added. -/
theorem action_header_primitives_stub_bug (p : ParsedPacketM) (href nm : String)
    (hcontains : p.header_validP href = true) :
    ActionM.evalA
        { name := nm, param_list := [], primitives := [.removeHeader href],
          param_refs := [href] } p [] = .ok p ∧
    p.header_validP href = true ∧
    ActionM.evalA
        { name := nm, param_list := [], primitives := [.addHeader href],
          param_refs := [href] } p [] = .error .attributeError := by
  refine ⟨?_, hcontains, ?_⟩
  · unfold ActionM.evalA
    simp only [sameKeySet, List.map_nil, List.all_nil, Bool.and_self, not_true_eq_false,
      if_false]
    unfold buildValuesLoop
    simp only [dictContains, List.any_nil, Bool.false_eq_true, if_false]
    cases hg : p.get_fieldP href <;> simp [hg, buildValuesLoop, evalPrimsLoop, evalPrim]
  · unfold ActionM.evalA
    simp only [sameKeySet, List.map_nil, List.all_nil, Bool.and_self, not_true_eq_false,
      if_false]
    unfold buildValuesLoop
    simp only [dictContains, List.any_nil, Bool.false_eq_true, if_false]
    cases hg : p.get_fieldP href <;> simp [hg, buildValuesLoop, evalPrimsLoop, evalPrim]

/-- Witness for C10 on a packet that contains the header `h`. -/
theorem action_header_primitives_stub_bug_witness :
    ActionM.evalA
        { name := "rm", param_list := [], primitives := [.removeHeader "h"],
          param_refs := ["h"] } pktH [] = .ok pktH ∧
    ParsedPacketM.header_validP pktH "h" = true ∧
    ActionM.evalA
        { name := "ad", param_list := [], primitives := [.addHeader "h"],
          param_refs := ["h"] } pktH [] = .error .attributeError :=
  action_header_primitives_stub_bug pktH "h" "rm" (by decide)

/-- One step of the ternary scan: characterisation of `.ok true` for
lists whose field references never resolve to byte-array values. -/
theorem checkMatchTernaryLoop_ok_true_iff (masks : Option (List (String × Nat)))
    (p : ParsedPacketM) :
    ∀ mv : List (String × Nat),
      mv.all (fun q => match p.get_fieldP q.1 with
        | some (.bytes _) => false
        | _ => true) = true →
      (checkMatchTernaryLoop masks p mv = .ok true ↔
        ∀ q ∈ mv, ∃ x, p.get_fieldP q.1 = some (.int x) ∧
          (derefOrNone masks q.1).elim (x = q.2) (fun m => x &&& m = q.2 &&& m)) := by
  intro mv
  induction mv with
  | nil =>
    intro _
    simp [checkMatchTernaryLoop]
  | cons q rest ih =>
    intro hall
    simp only [List.all_cons, Bool.and_eq_true] at hall
    obtain ⟨hq, hrest⟩ := hall
    have ihr := ih hrest
    obtain ⟨fname, value⟩ := q
    cases hg : p.get_fieldP fname with
    | none =>
      constructor
      · intro h
        simp [checkMatchTernaryLoop, hg] at h
      · intro h
        exfalso
        obtain ⟨x, hx, _⟩ := h (fname, value) (List.mem_cons_self _ _)
        rw [hg] at hx
        exact Option.noConfusion hx
    | some pv =>
      cases pv with
      | bytes bs =>
        exfalso
        rw [hg] at hq
        simp at hq
      | int x =>
        cases hm : derefOrNone masks fname with
        | some m =>
          by_cases hxe : x &&& m = value &&& m
          · rw [show checkMatchTernaryLoop masks p ((fname, value) :: rest)
                = checkMatchTernaryLoop masks p rest by
                simp [checkMatchTernaryLoop, hg, hm, hxe]]
            rw [ihr, List.forall_mem_cons]
            constructor
            · intro hr
              exact ⟨⟨x, hg, by rw [hm]; exact hxe⟩, hr⟩
            · intro hr
              exact hr.2
          · constructor
            · intro h
              simp [checkMatchTernaryLoop, hg, hm, hxe] at h
            · intro h
              exfalso
              obtain ⟨y, hy, he⟩ := h (fname, value) (List.mem_cons_self _ _)
              rw [hg] at hy
              obtain rfl : x = y := FieldVal.int.inj (Option.some.inj hy)
              rw [hm] at he
              exact hxe he
        | none =>
          by_cases hxe : x = value
          · rw [show checkMatchTernaryLoop masks p ((fname, value) :: rest)
                = checkMatchTernaryLoop masks p rest by
                simp [checkMatchTernaryLoop, hg, hm, hxe]]
            rw [ihr, List.forall_mem_cons]
            constructor
            · intro hr
              exact ⟨⟨x, hg, by rw [hm]; exact hxe⟩, hr⟩
            · intro hr
              exact hr.2
          · constructor
            · intro h
              simp [checkMatchTernaryLoop, hg, hm, hxe] at h
            · intro h
              exfalso
              obtain ⟨y, hy, he⟩ := h (fname, value) (List.mem_cons_self _ _)
              rw [hg] at hy
              obtain rfl : x = y := FieldVal.int.inj (Option.some.inj hy)
              rw [hm] at he
              exact hxe he

/-- Claim C8 (corrected).  The original claim states that for every packet
that lacks the referenced field, `check_match` returns a non-truthy
result.  That is false: when the header of the reference is present but
the header has no field of that name, `HeaderInstance.get_field` returns
0 (not `None`), so a stored value that equals 0 under the mask matches —
see the counterexample.  Amended statement: provided no reference
resolves to a byte-array value, `TableEntryTernary.check_match` returns
the truthy `(action_ref, action_params)` iff every stored value compares
equal to the value `ParsedPacket.get_field` resolves — under `& mask` on
both sides when a mask is present, exactly otherwise; the match fails on
an unresolvable reference (absent header, or missing metadata name), not
on a missing field of a present header. -/
theorem ternary_check_match_amended (mv : List (String × Nat))
    (masks : Option (List (String × Nat))) (aref : String)
    (ap : List (String × FieldVal)) (pr : Nat) (p : ParsedPacketM)
    (hnb : mv.all (fun q => match p.get_fieldP q.1 with
      | some (.bytes _) => false
      | _ => true) = true) :
    (TableEntryM.ternary mv masks aref ap pr).check_matchE p = .ok (some (aref, ap)) ↔
      ∀ q ∈ mv, ∃ x, p.get_fieldP q.1 = some (.int x) ∧
        (derefOrNone masks q.1).elim (x = q.2) (fun m => x &&& m = q.2 &&& m) := by
  rw [← checkMatchTernaryLoop_ok_true_iff masks p mv hnb]
  show checkMatchTernary mv masks aref ap p = .ok (some (aref, ap)) ↔ _
  unfold checkMatchTernary
  cases hloop : checkMatchTernaryLoop masks p mv with
  | error e => simp
  | ok b => cases b <;> simp

/-- Counterexample to the original Claim C8 sentence: the packet `pktH`
has the header `h` but `h` carries no field named `f`, yet the ternary
entry storing 0 for `h.f` matches, because the missing field resolves to
the integer 0. -/
theorem ternary_missing_field_matches_zero :
    hdrNoFields.fields.find? (fun fld => fld.name = "f") = none ∧
    pktH.get_fieldP "h.f" = some (.int 0) ∧
    (TableEntryM.ternary [("h.f", 0)] none "fwd" [] 0).check_matchE pktH
      = .ok (some ("fwd", [])) := by
  refine ⟨rfl, by decide, by decide⟩

/-- Witness for the amended C8 theorem at a concrete entry and packet. -/
theorem ternary_check_match_amended_witness :
    [(("h.f" : String), (5 : Nat))].all (fun q => match pktH.get_fieldP q.1 with
      | some (.bytes _) => false
      | _ => true) = true ∧
    ((TableEntryM.ternary [("h.f", 5)] none "fwd" [] 0).check_matchE pktH
        = .ok (some ("fwd", [])) ↔
      ∀ q ∈ [(("h.f" : String), (5 : Nat))], ∃ x, pktH.get_fieldP q.1 = some (.int x) ∧
        (derefOrNone none q.1).elim (x = q.2) (fun m => x &&& m = q.2 &&& m)) :=
  ⟨by decide, ternary_check_match_amended [("h.f", 5)] none "fwd" [] 0 pktH (by decide)⟩

/-- Counterexample to the original Claim C9 sentences: `add_header_before`
raises `NameError` on every call (its first `air_check` evaluates the
undefined name `AIRPacketModException` as the exception argument), and
`set_field` on a malformed reference raises `ValueError` (unlike
`get_field` there is no `try` around the split) — neither returns `None`
without raising. -/
theorem add_header_before_always_raises :
    pktH.add_header_beforeP "nh" [] "h" = .error .nameError ∧
    pktH.set_fieldP "nodots" (.int 0) = .error .valueError :=
  ⟨rfl, by decide⟩

/-- Claim C9 (corrected).  The original claim says both insertion methods
and `set_field` surface failure as a `None` return without raising.
Amended statement: `add_header_before` raises `NameError` on every call;
`add_header_after` returns `None` without raising when the anchor is
absent or the new name already exists, and the new header length on
success; `get_field` on a malformed reference returns `None`, but
`set_field` on a malformed reference raises `ValueError` (it returns
`None` without raising only for a well-formed reference whose header is
unknown). -/
theorem packet_mutators_amended (p : ParsedPacketM) (nm anchor ref : String)
    (attrs : List (String × Nat)) (v : FieldVal) (hh : HeaderInstanceM)
    (hmal : splitDot ref = none)
    (hmk : mkHeaderInstanceParsed nm attrs none 0 = .ok hh) :
    p.add_header_beforeP nm attrs anchor = .error .nameError ∧
    (dictContains p.header_map anchor = false →
      p.add_header_afterP nm attrs anchor = .ok (p, none)) ∧
    (dictContains p.header_map anchor = true → dictContains p.header_map nm = true →
      p.add_header_afterP nm attrs anchor = .ok (p, none)) ∧
    (dictContains p.header_map anchor = true → dictContains p.header_map nm = false →
      ∃ p2, p.add_header_afterP nm attrs anchor = .ok (p2, some hh.length)) ∧
    p.get_fieldP ref = none ∧
    p.set_fieldP ref v = .error .valueError := by
  refine ⟨rfl, ?_, ?_, ?_, ?_, ?_⟩
  · intro h1
    unfold ParsedPacketM.add_header_afterP
    simp [h1]
  · intro h1 h2
    unfold ParsedPacketM.add_header_afterP
    simp [h1, h2]
  · intro h1 h2
    unfold ParsedPacketM.add_header_afterP
    simp only [h1, h2, hmk, not_true_eq_false, if_false, Bool.false_eq_true, if_true]
    exact ⟨_, rfl⟩
  · unfold ParsedPacketM.get_fieldP
    rw [hmal]
  · unfold ParsedPacketM.set_fieldP
    rw [hmal]

/-- Witness for the amended C9 theorem at a concrete packet. -/
theorem packet_mutators_amended_witness :
    ParsedPacketM.add_header_beforeP pktH "nh" [] "h" = .error .nameError ∧
    (dictContains pktH.header_map "h" = false →
      ParsedPacketM.add_header_afterP pktH "nh" [] "h" = .ok (pktH, none)) ∧
    (dictContains pktH.header_map "h" = true → dictContains pktH.header_map "nh" = true →
      ParsedPacketM.add_header_afterP pktH "nh" [] "h" = .ok (pktH, none)) ∧
    (dictContains pktH.header_map "h" = true → dictContains pktH.header_map "nh" = false →
      ∃ p2, ParsedPacketM.add_header_afterP pktH "nh" [] "h" = .ok (p2, some hhFix.length)) ∧
    ParsedPacketM.get_fieldP pktH "bad" = none ∧
    ParsedPacketM.set_fieldP pktH "bad" (.int 0) = .error .valueError :=
  packet_mutators_amended pktH "nh" "h" "bad" [] (.int 0) hhFix rfl rfl

/-- The empty Python slice. -/
theorem pySlice_self (l : List Nat) (a : Nat) : pySlice l a a = [] := by
  unfold pySlice
  apply List.drop_eq_nil_of_le
  rw [List.length_take]
  exact Nat.min_le_left a l.length

/-- Adjacent Python slices concatenate. -/
theorem pySlice_concat (l : List Nat) (a b c : Nat) (hab : a ≤ b) (hbc : b ≤ c) :
    pySlice l a b ++ pySlice l b c = pySlice l a c := by
  unfold pySlice
  by_cases hL : a ≤ (l.take b).length
  · have h1 : l.take b = (l.take c).take b := by
      rw [List.take_take, Nat.min_eq_left hbc]
    have h2 : l.take c = l.take b ++ (l.take c).drop b := by
      conv_lhs => rw [← List.take_append_drop b (l.take c)]
      rw [← h1]
    conv_rhs => rw [h2]
    rw [List.drop_append_eq_append_drop, Nat.sub_eq_zero_of_le hL, List.drop_zero]
  · push_neg at hL
    rw [List.length_take] at hL
    have hlen : l.length < a := by omega
    have e1 : (l.take b).drop a = [] := by
      apply List.drop_eq_nil_of_le
      rw [List.length_take]
      omega
    have e2 : (l.take c).drop b = [] := by
      apply List.drop_eq_nil_of_le
      rw [List.length_take]
      omega
    have e3 : (l.take c).drop a = [] := by
      apply List.drop_eq_nil_of_le
      rw [List.length_take]
      omega
    rw [e1, e2, e3]
    rfl

/-- `sumHdrLen` over a snoc. -/
theorem sumHdrLen_snoc (hs : List (String × HeaderInstanceM)) (nm : String)
    (h : HeaderInstanceM) : sumHdrLen (hs ++ [(nm, h)]) = sumHdrLen hs + h.length := by
  simp [sumHdrLen]

/-- An unmodified header in a chain serializes to its byte range. -/
theorem serializeH_unmodified (h : HeaderInstanceM) (hm : h.modified = false) :
    h.serializeH = .ok (pySlice h.byte_buffer h.offset (h.offset + h.length)) := by
  unfold HeaderInstanceM.serializeH
  rw [hm]
  rfl

/-- The header concatenation loop over a contiguous unmodified chain
produces exactly the covered byte range. -/
theorem serializeHeadersLoop_chain (buf : List Nat) (hs : List (String × HeaderInstanceM)) :
    ∀ off : Nat, HeadersChain buf off hs →
      serializeHeadersLoop hs = .ok (pySlice buf off (off + sumHdrLen hs)) := by
  induction hs with
  | nil =>
    intro off _
    simp [serializeHeadersLoop, sumHdrLen, pySlice_self]
  | cons q rest ih =>
    obtain ⟨nm, h⟩ := q
    intro off hch
    simp only [HeadersChain] at hch
    obtain ⟨hbuf, hoff, hmod, hrest⟩ := hch
    have ihr := ih (off + h.length) hrest
    unfold serializeHeadersLoop
    rw [serializeH_unmodified h hmod, hbuf, hoff, ihr]
    dsimp only
    rw [pySlice_concat buf off (off + h.length) (off + h.length + sumHdrLen rest)
      (Nat.le_add_right _ _) (Nat.le_add_right _ _)]
    have harith : off + h.length + sumHdrLen rest = off + sumHdrLen ((nm, h) :: rest) := by
      simp only [sumHdrLen, List.map_cons, List.sum_cons]
      omega
    rw [harith]

/-- Assignment of a fresh key appends to the ordered dictionary. -/
theorem dictSet_of_fresh {α : Type} (m : List (String × α)) (k : String) (v : α)
    (h : dictContains m k = false) : dictSet m k v = m ++ [(k, v)] := by
  unfold dictContains at h
  unfold dictSet
  rw [h]
  rfl

/-- Key membership reads off the key list. -/
theorem dictContains_keysAny {α : Type} (m : List (String × α)) (n : String) :
    dictContains m n = (m.map Prod.fst).any (fun s => s = n) := by
  unfold dictContains
  induction m with
  | nil => rfl
  | cons q rest ih => simp [ih]

/-- Shape of a header instance successfully parsed from a NONEMPTY
buffer (an empty buffer is falsy and would be replaced by the constant
zero buffer): it is an unmodified view of the given buffer at the given
offset. -/
theorem mkHeaderInstanceParsed_shape (name : String) (attrs : List (String × Nat))
    (buf : List Nat) (off : Nat) (h : HeaderInstanceM) (hne : buf ≠ [])
    (hmk : mkHeaderInstanceParsed name attrs (some buf) off = .ok h) :
    h.byte_buffer = buf ∧ h.offset = off ∧ h.modified = false := by
  have hie : buf.isEmpty = false := by
    cases buf with
    | nil => exact absurd rfl hne
    | cons b rest => rfl
  unfold mkHeaderInstanceParsed at hmk
  dsimp only at hmk
  rw [hie] at hmk
  simp only [Bool.false_eq_true, if_false] at hmk
  cases hp : parseFieldsLoop buf off attrs 0 [] with
  | error e =>
    rw [hp] at hmk
    exact absurd hmk (by simp)
  | ok r =>
    rw [hp] at hmk
    obtain rfl := Except.ok.inj hmk
    exact ⟨rfl, rfl, rfl⟩

/-- Extending a contiguous unmodified chain by one header placed right
after it. -/
theorem HeadersChain_snoc (buf : List Nat) (hs : List (String × HeaderInstanceM))
    (nm : String) (h : HeaderInstanceM) :
    ∀ off : Nat, HeadersChain buf off hs →
      h.byte_buffer = buf → h.offset = off + sumHdrLen hs → h.modified = false →
      HeadersChain buf off (hs ++ [(nm, h)]) := by
  induction hs with
  | nil =>
    intro off _ h1 h2 h3
    simp only [List.nil_append, HeadersChain]
    refine ⟨h1, ?_, h3, trivial⟩
    rw [h2]
    simp [sumHdrLen]
  | cons q rest ih =>
    obtain ⟨nm2, hh⟩ := q
    intro off hch hb ho hm
    simp only [HeadersChain, List.cons_append] at hch ⊢
    obtain ⟨c1, c2, c3, c4⟩ := hch
    refine ⟨c1, c2, c3, ih (off + hh.length) c4 hb ?_ hm⟩
    rw [ho]
    simp only [sumHdrLen, List.map_cons, List.sum_cons]
    omega

/-- `parse_header` on a fresh name over a nonempty original buffer
preserves the packet invariant and appends the name to the ordered key
list. -/
theorem parse_headerP_wf (p : ParsedPacketM) (buf : List Nat) (name : String)
    (attrs : List (String × Nat)) (p2 : ParsedPacketM) (hbne : buf ≠ [])
    (hwf : PacketWF p buf) (hfresh : dictContains p.header_map name = false)
    (hp : p.parse_headerP name attrs = .ok p2) :
    PacketWF p2 buf ∧ p2.header_map.map Prod.fst = p.header_map.map Prod.fst ++ [name] := by
  obtain ⟨hor, hch, hpo, hpl⟩ := hwf
  unfold ParsedPacketM.parse_headerP at hp
  cases hmk : mkHeaderInstanceParsed name attrs (some p.original_packet) p.payload_offset with
  | error e =>
    rw [hmk] at hp
    exact absurd hp (by simp)
  | ok hh =>
    rw [hmk] at hp
    obtain rfl := Except.ok.inj hp
    rw [hor] at hmk
    obtain ⟨hb, ho, hm⟩ :=
      mkHeaderInstanceParsed_shape name attrs buf p.payload_offset hh hbne hmk
    simp only [PacketWF, dictSet_of_fresh p.header_map name hh hfresh]
    refine ⟨⟨hor, ?_, ?_, ?_⟩, ?_⟩
    · refine HeadersChain_snoc buf p.header_map name hh 0 hch hb ?_ hm
      rw [ho, hpo]
      omega
    · rw [sumHdrLen_snoc, hpo]
    · push_cast
      omega
    · simp

/-- A parse program over fresh, pairwise distinct header names preserves
the packet invariant. -/
theorem foldParse_wf (buf : List Nat) (hs : List (String × List (String × Nat)))
    (hbne : buf ≠ []) :
    ∀ p p2 : ParsedPacketM,
      PacketWF p buf →
      (∀ n ∈ hs.map Prod.fst, dictContains p.header_map n = false) →
      (hs.map Prod.fst).Nodup →
      foldParse p hs = .ok p2 → PacketWF p2 buf := by
  induction hs with
  | nil =>
    intro p p2 hwf _ _ hf
    simp only [foldParse] at hf
    obtain rfl := Except.ok.inj hf
    exact hwf
  | cons q rest ih =>
    obtain ⟨name, attrs⟩ := q
    intro p p2 hwf hfresh hnd hf
    simp only [foldParse] at hf
    cases hp : p.parse_headerP name attrs with
    | error e =>
      rw [hp] at hf
      exact absurd hf (by simp)
    | ok pmid =>
      rw [hp] at hf
      obtain ⟨hwf2, hkeys⟩ :=
        parse_headerP_wf p buf name attrs pmid hbne hwf (hfresh name (by simp)) hp
      simp only [List.map_cons, List.nodup_cons] at hnd
      refine ih pmid p2 hwf2 ?_ hnd.2 hf
      intro n hn
      have hne : name ≠ n := by
        intro he
        exact hnd.1 (he ▸ hn)
      have hold : dictContains p.header_map n = false := hfresh n (by simp [hn])
      rw [dictContains_keysAny, hkeys, List.any_append]
      rw [dictContains_keysAny] at hold
      simp [hold, hne]

/-- A packet satisfying the invariant serializes to its original buffer. -/
theorem serializeP_of_wf (p : ParsedPacketM) (buf : List Nat) (hwf : PacketWF p buf) :
    p.serializeP = .ok buf := by
  obtain ⟨hor, hch, hpo, hpl⟩ := hwf
  unfold ParsedPacketM.serializeP
  rw [serializeHeadersLoop_chain buf p.header_map 0 hch]
  dsimp only
  rw [hor]
  congr 1
  rw [hpl]
  unfold pySliceInt pyIdx pySlice
  rw [if_neg (by omega : ¬ ((buf.length : Int) < 0))]
  rw [if_neg (by omega : ¬ ((p.payload_offset : Int) < 0))]
  rw [Int.toNat_natCast, Int.toNat_natCast, Nat.min_self, List.take_length,
    Nat.zero_add, List.drop_zero]
  rw [hpo]
  rcases Nat.le_total (sumHdrLen p.header_map) buf.length with hle | hle
  · rw [Nat.min_eq_left hle, List.take_append_drop]
  · rw [Nat.min_eq_right hle, List.drop_length, List.append_nil,
      List.take_of_length_le hle]

/-- Claim C2 (corrected).  The original claim quantifies over every
original buffer; it fails for the EMPTY buffer: `HeaderInstance.__init__`
checks the buffer by Python truthiness (`if byte_buffer:`, header.py
lines 51-54), so an empty original is silently replaced by the constant
12KB zero buffer, `parse_header` succeeds parsing zeros, and
`serialize()` returns those zero bytes — not the empty original (see the
counterexample).  Amended statement: for every packet built from a
NONEMPTY original buffer by `ParsedPacket.__init__` followed by any
sequence of `parse_header` calls on pairwise distinct header names — no
field modified, no header added or removed — `serialize()` returns a
byte sequence equal to the original buffer; along the way each
unmodified header instance serializes to its original byte range
verbatim (`serializeHeadersLoop_chain`). -/
theorem serialize_unmodified_eq_original (buf : List Nat)
    (md : List (String × List (String × Nat))) (pid : Nat)
    (hs : List (String × List (String × Nat))) (p0 p : ParsedPacketM)
    (hbne : buf ≠ [])
    (hinit : mkParsedPacket buf md pid = .ok p0)
    (hnd : (hs.map Prod.fst).Nodup)
    (hfold : foldParse p0 hs = .ok p) :
    p.serializeP = .ok buf := by
  have hp0 : p0.original_packet = buf ∧ p0.header_map = ([] : List (String × HeaderInstanceM)) ∧
      p0.payload_offset = 0 ∧ p0.payload_length = (buf.length : Int) := by
    unfold mkParsedPacket at hinit
    cases hmd : mkMetadataLoop md with
    | error e =>
      rw [hmd] at hinit
      exact absurd hinit (by simp)
    | ok m =>
      rw [hmd] at hinit
      obtain rfl := Except.ok.inj hinit
      exact ⟨rfl, rfl, rfl, rfl⟩
  obtain ⟨h1, h2, h3, h4⟩ := hp0
  have hwf0 : PacketWF p0 buf := by
    refine ⟨h1, ?_, ?_, ?_⟩
    · rw [h2]
      trivial
    · rw [h3, h2]
      rfl
    · rw [h3, h4]
      simp
  have hwf := foldParse_wf buf hs hbne p0 p hwf0 (fun n _ => by rw [h2]; rfl) hnd hfold
  exact serializeP_of_wf p buf hwf

/-- Witness for the amended C2 theorem: a six-byte (nonempty) buffer
parsed into a 16-bit header and an 8-bit header serializes back to the
buffer. -/
theorem serialize_unmodified_eq_original_witness :
    bufW ≠ [] ∧ mkParsedPacket bufW [] 0 = .ok p0W ∧ (hsW.map Prod.fst).Nodup ∧
    foldParse p0W hsW = .ok pW ∧ pW.serializeP = .ok bufW :=
  ⟨by decide, rfl, by decide, by decide,
    serialize_unmodified_eq_original bufW [] 0 hsW p0W pW (by decide) rfl (by decide)
      (by decide)⟩

/-- Counterexample to the original Claim C2 sentence: over the EMPTY
original buffer, the falsy-buffer substitution of
`HeaderInstance.__init__` makes `parse_header` of a 16-bit header
succeed against the constant zero buffer, and `serialize()` returns two
zero bytes — not the empty original buffer. -/
theorem serialize_empty_buffer_not_original :
    mkParsedPacket [] [] 0 = .ok p0E ∧
    foldParse p0E [("a", [("x", 16)])] = .ok pE ∧
    pE.serializeP = .ok [0, 0] ∧ pE.serializeP ≠ .ok ([] : List Nat) := by
  refine ⟨rfl, rfl, rfl, ?_⟩
  intro h
  have h2 : (Except.ok [0, 0] : Except PyErr (List Nat)) = .ok [] := h
  simp at h2
